import Mathlib

/-!
Verification of the CLONIQ structural-similarity engine.

This file gives a shallow embedding, in Lean 4, of the core of the
`backend/app/services` package — the three-layer fingerprinting pipeline
(AST subtree hashes, per-function CFG edge hashes, per-function data-flow
edge hashes), the pairwise comparators, and the matrix/graph aggregators —
and proves or refutes the frozen specification claims about it.

Modelling conventions used throughout:
* Python `float` values are modelled as rationals (`ℚ`); Python's
  `round(x, n)` (round-half-to-even) is modelled by `pyRound`.
* SHA-256 (`hashlib.sha256(...).hexdigest()`) is modelled as an arbitrary
  function `H : String → String` over which every theorem quantifies; no
  claim in scope depends on properties of the digest, only on equality of
  the input token strings.
* Python `set` becomes `Finset`, `dict` becomes either an association list
  (when iteration order matters) or a total function with the dict's
  default value (for `dict.get(k, default)` / `setdefault` patterns).
* Python's stable `list.sort(key=...)` is modelled by `List.insertionSort`
  with the corresponding (reflexive, total) relation: `orderedInsert`
  places an earlier element before the later elements it ties with, which
  is exactly the stability guarantee of Python's sort.
* `ast.AST` objects, traversed generically by `ast.iter_child_nodes` /
  `ast.walk`, are modelled by the rose tree `IRNode` (also the model of
  the unified-IR dicts); the Python statements and expressions that the
  data-flow visitors dispatch on by `isinstance` are modelled by the typed
  syntax `Stmt`/`Expr`, with `Stmt.toIR` giving the generic view used by
  the type-name-driven traversals.
-/

namespace Cloniq

/-! ## Python numeric and ordering helpers -/

/-- Round a rational to the nearest integer, ties to even — the rounding
mode of Python's built-in `round`. -/
def roundHalfEven (q : ℚ) : ℤ :=
  let f := ⌊q⌋
  let r := q - f
  if r < 1/2 then f
  else if 1/2 < r then f + 1
  else if f % 2 = 0 then f else f + 1

/-- Python's `round(q, n)` on our rational model of floats. -/
def pyRound (q : ℚ) (n : ℕ) : ℚ :=
  (roundHalfEven (q * 10 ^ n) : ℚ) / 10 ^ n

/-- Lexicographic order on pairs of strings, as Python compares the
tuples `(file1, file2)` / `(source, target)`. -/
def strPairLe (x y : String × String) : Prop :=
  x.1 < y.1 ∨ (x.1 = y.1 ∧ x.2 ≤ y.2)

/-- Strict version of `strPairLe`. -/
def strPairLt (x y : String × String) : Prop :=
  x.1 < y.1 ∨ (x.1 = y.1 ∧ x.2 < y.2)

instance : DecidableRel strPairLe := fun x y =>
  inferInstanceAs (Decidable (_ ∨ _))

instance : DecidableRel strPairLt := fun x y =>
  inferInstanceAs (Decidable (_ ∨ _))

/-- All ordered pairs `(l[i], l[j])` with `i < j`, in row-major order —
the enumeration order of the nested `for i / for j in range(i+1, n)`
loops of `compute_similarity`. -/
def offDiagPairs {α : Type} : List α → List (α × α)
  | [] => []
  | a :: rest => rest.map (fun b => (a, b)) ++ offDiagPairs rest

/-- All pairs `A × B` in the iteration order of the nested
`for name_a in group_a / for name_b in group_b` loops of
`compute_cross_similarity` (Python dicts iterate in insertion order). -/
def crossPairs {α : Type} (la lb : List α) : List (α × α) :=
  la.flatMap (fun a => lb.map (fun b => (a, b)))

/-- Association-list lookup, the model of Python `dict` access for the
canonical-name maps (`var_map`, `func_map`, …). -/
def assocFind (m : List (String × String)) (k : String) : Option String :=
  match m with
  | [] => none
  | (k', v) :: rest => if k = k' then some v else assocFind rest k

/-! ## The generic tree model (`ast.AST` objects / unified-IR dicts)

An `IRNode` carries exactly the attributes the embedded code reads:
`type`, optional `name`, optional `value`, optional `args` (a list of
parameter-name strings, as the unified IR stores for function nodes),
optional `start_line` / `end_line` (`lineno` / `end_lineno` on `ast`
nodes), and the ordered `children` (`ast.iter_child_nodes` /
`ir["children"]`). A missing dict key / attribute is `none`. -/

inductive IRNode where
  | mk (type : String) (name : Option String) (value : Option String)
       (args : Option (List String))
       (start_line : Option ℤ) (end_line : Option ℤ)
       (children : List IRNode)

/-- Projection: the `type` tag of a node. -/
def IRNode.type : IRNode → String
  | .mk t _ _ _ _ _ _ => t

/-- Projection: the optional `name` of a node. -/
def IRNode.name : IRNode → Option String
  | .mk _ n _ _ _ _ _ => n

/-- Projection: the optional `value` of a node. -/
def IRNode.value : IRNode → Option String
  | .mk _ _ v _ _ _ _ => v

/-- Projection: the optional `args` (parameter-name strings). -/
def IRNode.args : IRNode → Option (List String)
  | .mk _ _ _ a _ _ _ => a

/-- Projection: the optional `start_line`. -/
def IRNode.start_line : IRNode → Option ℤ
  | .mk _ _ _ _ s _ _ => s

/-- Projection: the optional `end_line`. -/
def IRNode.end_line : IRNode → Option ℤ
  | .mk _ _ _ _ _ e _ => e

/-- Projection: the ordered children. -/
def IRNode.children : IRNode → List IRNode
  | .mk _ _ _ _ _ _ c => c

mutual

/-- Boolean structural equality on `IRNode` (used to build `DecidableEq`,
which `deriving` cannot produce for this nested inductive). -/
def IRNode.beq : IRNode → IRNode → Bool
  | .mk t1 n1 v1 a1 s1 e1 c1, .mk t2 n2 v2 a2 s2 e2 c2 =>
    t1 = t2 && n1 = n2 && v1 = v2 && a1 = a2 && s1 = s2 && e1 = e2 &&
      IRNode.beqList c1 c2

/-- Boolean structural equality on lists of `IRNode`. -/
def IRNode.beqList : List IRNode → List IRNode → Bool
  | [], [] => true
  | c :: cs, d :: ds => c.beq d && IRNode.beqList cs ds
  | _, _ => false

end

mutual

/-- All nodes of a tree.  `ast.walk` yields nodes in breadth-first order;
every consumer below only folds a commutative operation (set union,
`Nat` addition) over the visited nodes, so the enumeration order is
irrelevant and we enumerate depth-first. -/
def IRNode.walk : IRNode → List IRNode
  | .mk t n v a s e cs => .mk t n v a s e cs :: IRNode.walkList cs

/-- Concatenated walks of a list of trees. -/
def IRNode.walkList : List IRNode → List IRNode
  | [] => []
  | c :: rest => c.walk ++ IRNode.walkList rest

end

/-! ## Typed Python syntax (the nodes the visitors dispatch on)

The data-flow extractor (`_DFG`), the local renamer (`_LocalRenamer`) and
the global normaliser (`_NameCanonicalizer`) dispatch on concrete
`ast` classes, so they are embedded over a typed syntax.  The embedding
covers the constructs those visitors handle (plus the generic recursion
through compound statements); `Call` keyword arguments, decorators,
default parameter values and annotations on parameters are omitted from
the sublanguage, and `AnnAssign`'s annotation field is named `annot`. -/

/-- Python literal values (`ast.Constant.value`), as far as the embedded
code inspects them: it only ever asks `isinstance(value, str)`. -/
inductive PyVal where
  | strV (s : String)
  | intV (z : ℤ)
  | boolV (b : Bool)
  | noneV
deriving DecidableEq

/-- Expression contexts (`ast.Load` / `ast.Store` / `ast.Del`). -/
inductive Ctx where
  | load
  | store
  | del
deriving DecidableEq

mutual

/-- Python expressions (the `ast.expr` constructors in scope). -/
inductive Expr where
  | name (id : String) (ctx : Ctx)
  | constant (value : PyVal)
  | binOp (left : Expr) (op : String) (right : Expr)
  | boolOp (op : String) (values : List Expr)
  | compare (left : Expr) (ops : List String) (comparators : List Expr)
  | call (func : Expr) (args : List Expr)
  | tupleE (elts : List Expr) (ctx : Ctx)
  | listE (elts : List Expr) (ctx : Ctx)

/-- Python statements (the `ast.stmt` constructors in scope). -/
inductive Stmt where
  | functionDef (name : String) (args : List String) (body : List Stmt)
  | asyncFunctionDef (name : String) (args : List String) (body : List Stmt)
  | classDef (name : String) (body : List Stmt)
  | assign (targets : List Expr) (value : Expr)
  | augAssign (target : Expr) (op : String) (value : Expr)
  | annAssign (target : Expr) ( annot : Expr) (value : Option Expr)
  | forS (target : Expr) (iter : Expr) (body : List Stmt) (orelse : List Stmt)
  | whileS (test : Expr) (body : List Stmt) (orelse : List Stmt)
  | ifS (test : Expr) (body : List Stmt) (orelse : List Stmt)
  | returnS (value : Option Expr)
  | exprS (value : Expr)
  | passS

end

/-- A parsed Python module: `ast.Module` with its `body`. -/
structure PyModule where
  body : List Stmt

/-- The generic view of an expression context: `Load()` / `Store()` /
`Del()` are childless `ast` nodes (with no line attributes). -/
def Ctx.toIR : Ctx → IRNode
  | .load => .mk "Load" none none none none none []
  | .store => .mk "Store" none none none none none []
  | .del => .mk "Del" none none none none none []

/-- Rendering of a literal for the IR `value` slot. -/
def PyVal.str : PyVal → String
  | .strV s => s
  | .intV z => toString z
  | .boolV b => toString b
  | .noneV => "None"

/-- A childless operator node (`ast.Add`, `ast.And`, `ast.Eq`, …). -/
def opIR (op : String) : IRNode :=
  .mk op none none none none none []

mutual

/-- The generic `ast` view of an expression: node type name plus children
in `_fields` order, exactly what `ast.iter_child_nodes` yields.  Line
attributes are left absent (they do not influence any similarity score;
`getattr(node, "lineno", 0)` then defaults to `0`). -/
def Expr.toIR : Expr → IRNode
  | .name _ c => .mk "Name" none none none none none [c.toIR]
  | .constant v => .mk "Constant" none (some v.str) none none none []
  | .binOp l op r => .mk "BinOp" none none none none none
      [l.toIR, opIR op, r.toIR]
  | .boolOp op vs => .mk "BoolOp" none none none none none
      (opIR op :: Expr.toIRList vs)
  | .compare l ops cs => .mk "Compare" none none none none none
      (l.toIR :: (ops.map opIR ++ Expr.toIRList cs))
  | .call f args => .mk "Call" none none none none none
      (f.toIR :: Expr.toIRList args)
  | .tupleE elts c => .mk "Tuple" none none none none none
      (Expr.toIRList elts ++ [c.toIR])
  | .listE elts c => .mk "List" none none none none none
      (Expr.toIRList elts ++ [c.toIR])

/-- Generic views of a list of expressions. -/
def Expr.toIRList : List Expr → List IRNode
  | [] => []
  | e :: rest => e.toIR :: Expr.toIRList rest

end

/-- The `ast.arguments` node of a function: it holds one `ast.arg` child
per parameter (the parameter name is the non-node string field
`arg.arg`, so `arg` children are childless for our sublanguage). -/
def argumentsIR (args : List String) : IRNode :=
  .mk "arguments" none none none none none
    (args.map (fun a => .mk "arg" (some a) none none none none []))

mutual

/-- The generic `ast` view of a statement (type name + children in
`_fields` order). -/
def Stmt.toIR : Stmt → IRNode
  | .functionDef nm args body => .mk "FunctionDef" (some nm) none none none none
      (argumentsIR args :: Stmt.toIRList body)
  | .asyncFunctionDef nm args body => .mk "AsyncFunctionDef" (some nm) none none none none
      (argumentsIR args :: Stmt.toIRList body)
  | .classDef nm body => .mk "ClassDef" (some nm) none none none none
      (Stmt.toIRList body)
  | .assign targets value => .mk "Assign" none none none none none
      (Expr.toIRList targets ++ [value.toIR])
  | .augAssign target op value => .mk "AugAssign" none none none none none
      [target.toIR, opIR op, value.toIR]
  | .annAssign target annot value => .mk "AnnAssign" none none none none none
      ([target.toIR, annot.toIR] ++ (value.map Expr.toIR).toList)
  | .forS target iter body orelse => .mk "For" none none none none none
      ([target.toIR, iter.toIR] ++ Stmt.toIRList body ++ Stmt.toIRList orelse)
  | .whileS test body orelse => .mk "While" none none none none none
      (test.toIR :: (Stmt.toIRList body ++ Stmt.toIRList orelse))
  | .ifS test body orelse => .mk "If" none none none none none
      (test.toIR :: (Stmt.toIRList body ++ Stmt.toIRList orelse))
  | .returnS value => .mk "Return" none none none none none
      (value.map Expr.toIR).toList
  | .exprS value => .mk "Expr" none none none none none [value.toIR]
  | .passS => .mk "Pass" none none none none none []

/-- Generic views of a list of statements. -/
def Stmt.toIRList : List Stmt → List IRNode
  | [] => []
  | s :: rest => s.toIR :: Stmt.toIRList rest

end

/-- The generic `ast` view of a module. -/
def PyModule.toIR (m : PyModule) : IRNode :=
  .mk "Module" none none none none none (Stmt.toIRList m.body)

/-! ## `ast_parser.py` / `unified_hasher.py` — subtree hashing

`generate_subtree_hashes` (over `ast` nodes) and `hash_ir` (over unified-IR
dicts) are the same recursion written twice in the source; they differ only
in the trivial-type set they consult and in the attribute spellings
(`type(node).__name__` / `ir["type"]`, `lineno` / `start_line`).  The
recursion is embedded once, parameterised by the trivial set, and each
Python function is defined as its instance. -/

/-- A single subtree fingerprint with its source location
(`utils/types.py`, `SubtreeInfo`). -/
structure SubtreeInfo where
  hash : String
  start_line : ℤ
  end_line : ℤ
deriving DecidableEq

/-- Everything known about one parsed file (`utils/types.py`,
`FileAnalysis`).  `hash_to_lines` is the Python dict modelled as a total
function whose default is `[]` (the code only ever reads it through
`setdefault(h, [])` / `.get(h, [])`).  The `metrics` field is omitted (no
claim reads it). -/
structure FileAnalysis where
  filename : String
  source_lines : List String
  subtree_infos : List SubtreeInfo
  hash_set : Finset String
  hash_to_lines : String → List (ℤ × ℤ)
  normalised_tree : Option PyModule

/-- The mutable collection state of the `_collect` closure. -/
structure HashState where
  infos : List SubtreeInfo
  hash_set : Finset String
  hash_to_lines : String → List (ℤ × ℤ)

/-- The empty collection state. -/
def HashState.init : HashState :=
  { infos := [], hash_set := ∅, hash_to_lines := fun _ => [] }

mutual

/-- The `_collect` recursion shared by `generate_subtree_hashes` and
`hash_ir`: hash all children, build the fingerprint
`type ++ "|" ++ "|".join(sorted(child_hashes))` (just `type` when there
are no children), digest it with `H`, and — when the node type is not in
`trivial` — record a `SubtreeInfo`, add the hash to `hash_set` and append
the line range to `hash_to_lines[h]`. -/
def subtreeCollect (trivial : List String) (H : String → String) :
    IRNode → HashState → HashState × String
  | .mk ty _ _ _ sl el cs, st =>
    let r := subtreeCollectList trivial H cs st
    let childHashes := r.2
    let fingerprint :=
      if childHashes.isEmpty then ty
      else ty ++ "|" ++ String.intercalate "|" (childHashes.insertionSort (· ≤ ·))
    let h := H fingerprint
    if ty ∈ trivial then (r.1, h)
    else
      let start := sl.getD 0
      let stop := el.getD start
      ({ infos := r.1.infos ++ [⟨h, start, stop⟩],
         hash_set := insert h r.1.hash_set,
         hash_to_lines := fun h' =>
           if h' = h then r.1.hash_to_lines h ++ [(start, stop)]
           else r.1.hash_to_lines h' }, h)

/-- Collect over a list of children, threading the state left to right and
returning the child hashes in order. -/
def subtreeCollectList (trivial : List String) (H : String → String) :
    List IRNode → HashState → HashState × List String
  | [], st => (st, [])
  | c :: rest, st =>
    let r := subtreeCollect trivial H c st
    let rr := subtreeCollectList trivial H rest r.1
    (rr.1, r.2 :: rr.2)

end

/-- Node types too small to be standalone fingerprints
(`ast_parser.py`, `_TRIVIAL_NODES`). -/
def _TRIVIAL_NODES : List String :=
  ["Name", "Constant", "Load", "Store", "Del",
   "Add", "Sub", "Mult", "Div", "Mod", "Pow",
   "LShift", "RShift", "BitOr", "BitXor", "BitAnd",
   "FloorDiv", "And", "Or", "Not", "Invert",
   "UAdd", "USub", "Eq", "NotEq", "Lt", "LtE",
   "Gt", "GtE", "Is", "IsNot", "In", "NotIn",
   "alias", "arg"]

/-- Trivial unified-IR node types (`unified_normalizer.py`,
`TRIVIAL_IR_TYPES`). -/
def TRIVIAL_IR_TYPES : List String :=
  ["Name", "Constant", "Load", "Store", "Del",
   "Add", "Sub", "Mult", "Div", "Mod", "Pow",
   "LShift", "RShift", "BitOr", "BitXor", "BitAnd",
   "FloorDiv", "And", "Or", "Not", "Invert",
   "UAdd", "USub", "Eq", "NotEq", "Lt", "LtE",
   "Gt", "GtE", "Is", "IsNot", "In", "NotIn",
   "alias", "arg",
   "identifier", "string", "number", "true", "false", "null",
   "template_string", "comment", "property_identifier",
   "shorthand_property_identifier", "shorthand_property_identifier_pattern"]

/-- Walk a normalised `ast` tree and collect a `SubtreeInfo` for every
non-trivial node (`ast_parser.py`, `generate_subtree_hashes`).  The
caller fills in `filename`/`source_lines`/`normalised_tree` afterwards. -/
def generate_subtree_hashes (H : String → String) (tree : IRNode) : FileAnalysis :=
  let st := (subtreeCollect _TRIVIAL_NODES H tree HashState.init).1
  { filename := "", source_lines := [], subtree_infos := st.infos,
    hash_set := st.hash_set, hash_to_lines := st.hash_to_lines,
    normalised_tree := none }

/-- Walk a normalised unified-IR tree and collect `SubtreeInfo` records
(`unified_hasher.py`, `hash_ir`). -/
def hash_ir (H : String → String) (ir : IRNode) : FileAnalysis :=
  let st := (subtreeCollect TRIVIAL_IR_TYPES H ir HashState.init).1
  { filename := "", source_lines := [], subtree_infos := st.infos,
    hash_set := st.hash_set, hash_to_lines := st.hash_to_lines,
    normalised_tree := none }

/-! ## `advanced_similarity.py` — the three layers

The configurable weights are read from environment variables on every
call (`_weight`); the environment is external state, so
`compute_advanced_similarity` takes the three already-read weights as
parameters, and claims about the default configuration instantiate them
with `0.4 / 0.3 / 0.3`. -/

/-- Result of the AST layer (`ASTResult`). -/
structure ASTResult where
  similarity : ℚ
  total_subtrees_file1 : ℕ
  total_subtrees_file2 : ℕ
  shared_subtrees : ℕ

/-- Result of the CFG layer (`CFGResult`). -/
structure CFGResult where
  similarity : ℚ
  nodes_file1 : ℕ
  nodes_file2 : ℕ
  shared_edges : ℕ

/-- Result of the data-flow layer (`DataFlowResult`). -/
structure DataFlowResult where
  similarity : ℚ
  edges_file1 : ℕ
  edges_file2 : ℕ
  shared_edges : ℕ

/-- Combined result (`AdvancedResult`); the `weights` triple is
`(ast, cfg, dataflow)`. -/
structure AdvancedResult where
  ast : ASTResult
  cfg : CFGResult
  dataflow : DataFlowResult
  final_similarity_score : ℚ
  weights : ℚ × ℚ × ℚ

/-- Jaccard similarity over unique subtree-hash sets
(`compute_ast_similarity`): `0.0` when the union is empty, else
`|A ∩ B| / |A ∪ B|`, rounded to 6 decimals. -/
def compute_ast_similarity (analysis_a analysis_b : FileAnalysis) : ASTResult :=
  let set_a := analysis_a.hash_set
  let set_b := analysis_b.hash_set
  let intersection := set_a ∩ set_b
  let union := set_a ∪ set_b
  let similarity : ℚ := if union = ∅ then 0 else (intersection.card : ℚ) / union.card
  { similarity := pyRound similarity 6,
    total_subtrees_file1 := set_a.card,
    total_subtrees_file2 := set_b.card,
    shared_subtrees := intersection.card }

/-- Node types that start a new basic-block scope inside a function
(`_CFG_SCOPE_NODES`). -/
def _CFG_SCOPE_NODES : List String :=
  ["If", "For", "While", "AsyncFor",
   "Try", "ExceptHandler",
   "With", "AsyncWith",
   "Match"]

mutual

/-- The `_visit` closure of `_cfg_edges_for_function`: scope-starting
nodes take the next local discovery id (with an edge from the parent's
current id); all other nodes pass the parent id through.  The state is
`(counter, edges)`. -/
def cfgVisit (node : IRNode) (parent_id : ℕ) (st : ℕ × Finset (ℕ × ℕ)) :
    ℕ × Finset (ℕ × ℕ) :=
  match node with
  | .mk ty _ _ _ _ _ cs =>
    if ty ∈ _CFG_SCOPE_NODES then
      cfgVisitList cs st.1 (st.1 + 1, insert (parent_id, st.1) st.2)
    else
      cfgVisitList cs parent_id st

/-- Visit a list of children left to right, threading the state. -/
def cfgVisitList (l : List IRNode) (parent_id : ℕ) (st : ℕ × Finset (ℕ × ℕ)) :
    ℕ × Finset (ℕ × ℕ) :=
  match l with
  | [] => st
  | c :: rest => cfgVisitList rest parent_id (cfgVisit c parent_id st)

end

/-- Build the local CFG of one function (`_cfg_edges_for_function`): entry
block id `0`, children visited with locally-reset discovery ids; returns
`(local_node_count, edge_set)`. -/
def _cfg_edges_for_function (func_node : IRNode) : ℕ × Finset (ℕ × ℕ) :=
  let st := cfgVisitList func_node.children 0 (0, ∅)
  (st.1 + 1, st.2)

mutual

/-- The `_visit_module` closure of `_build_cfg_hashes`: like `cfgVisit`
but stopping at function boundaries (`depth > 0` and a `FunctionDef` /
`AsyncFunctionDef` node). -/
def visitModule (node : IRNode) (parent_id : ℕ) (depth : ℕ)
    (st : ℕ × Finset (ℕ × ℕ)) : ℕ × Finset (ℕ × ℕ) :=
  match node with
  | .mk ty _ _ _ _ _ cs =>
    if depth > 0 ∧ (ty = "FunctionDef" ∨ ty = "AsyncFunctionDef") then st
    else if ty ∈ _CFG_SCOPE_NODES then
      visitModuleList cs st.1 (depth + 1) (st.1 + 1, insert (parent_id, st.1) st.2)
    else
      visitModuleList cs parent_id (depth + 1) st

/-- Visit a list of module-level children left to right. -/
def visitModuleList (l : List IRNode) (parent_id : ℕ) (depth : ℕ)
    (st : ℕ × Finset (ℕ × ℕ)) : ℕ × Finset (ℕ × ℕ) :=
  match l with
  | [] => st
  | c :: rest => visitModuleList rest parent_id depth (visitModule c parent_id depth st)

end

/-- Serialisation and digest of one function-local CFG edge
(`"CFG_EDGE:src->dst"`). -/
def cfgEdgeHash (H : String → String) (e : ℕ × ℕ) : String :=
  H ("CFG_EDGE:" ++ toString e.1 ++ "->" ++ toString e.2)

/-- Serialisation and digest of one module-level CFG edge
(`"CFG_MODULE_EDGE:src->dst"`). -/
def cfgModuleEdgeHash (H : String → String) (e : ℕ × ℕ) : String :=
  H ("CFG_MODULE_EDGE:" ++ toString e.1 ++ "->" ++ toString e.2)

/-- Extract per-function CFG edges plus the module-level pass and hash
them (`_build_cfg_hashes`); returns `(total_node_count, hash_set)`.
The `ast.walk` enumeration of function nodes is modelled by the
depth-first `IRNode.walk` (only a set union and a sum are folded over
it, so the breadth-first order of the original is irrelevant). -/
def _build_cfg_hashes (H : String → String) (tree : IRNode) : ℕ × Finset String :=
  let funcs := tree.walk.filter
    (fun n => n.type == "FunctionDef" || n.type == "AsyncFunctionDef")
  let perFunc := funcs.foldl
    (fun acc f =>
      let r := _cfg_edges_for_function f
      (acc.1 + r.1, acc.2 ∪ r.2.image (cfgEdgeHash H)))
    ((0 : ℕ), (∅ : Finset String))
  let m := visitModule tree 0 0 (0, ∅)
  (perFunc.1 + (m.1 + 1), perFunc.2 ∪ m.2.image (cfgModuleEdgeHash H))

/-- The value the `similarity` local variable takes in
`compute_cfg_similarity` (the symmetric empty-set guard): `1.0` when both
hash sets are empty, `0.0` when the union is empty, else Jaccard. -/
def cfg_similarity_value (hashed_a hashed_b : Finset String) : ℚ :=
  if hashed_a = ∅ ∧ hashed_b = ∅ then 1
  else if hashed_a ∪ hashed_b = ∅ then 0
  else ((hashed_a ∩ hashed_b).card : ℚ) / (hashed_a ∪ hashed_b).card

/-- Build per-function CFGs for each normalised AST and compute Jaccard
similarity over the hashed edge sets (`compute_cfg_similarity`).  The
Python function receives the normalised `ast.Module` object and traverses
it generically; the embedding passes the typed module through its generic
view `PyModule.toIR`. -/
def compute_cfg_similarity (H : String → String) (tree_a tree_b : PyModule) : CFGResult :=
  let ra := _build_cfg_hashes H tree_a.toIR
  let rb := _build_cfg_hashes H tree_b.toIR
  { similarity := pyRound (cfg_similarity_value ra.2 rb.2) 6,
    nodes_file1 := ra.1,
    nodes_file2 := rb.1,
    shared_edges := (ra.2 ∩ rb.2).card }

/-! ## `advanced_similarity.py` — the data-flow layer -/

/-- State of the `_local_canonical_renamer` closure: the `var_map` dict
(insertion-ordered association list) and the fresh-name counter. -/
structure LocalRenSt where
  var_map : List (String × String)
  counter : ℕ

/-- The `_canonical` helper: look the original name up, or bind it to the
next `lv_k`. -/
def localCanonical (st : LocalRenSt) (original : String) : LocalRenSt × String :=
  match assocFind st.var_map original with
  | some v => (st, v)
  | none =>
    let nm := "lv_" ++ toString (st.counter + 1)
    ({ var_map := st.var_map ++ [(original, nm)], counter := st.counter + 1 }, nm)

mutual

/-- The `_LocalRenamer` transformer on expressions: `visit_Name` renames
every `Name.id`; everything else is `generic_visit` in `_fields` order. -/
def renExpr : Expr → LocalRenSt → Expr × LocalRenSt
  | .name id c, st =>
    let r := localCanonical st id
    (.name r.2 c, r.1)
  | .constant v, st => (.constant v, st)
  | .binOp l op r, st =>
    let rl := renExpr l st
    let rr := renExpr r rl.2
    (.binOp rl.1 op rr.1, rr.2)
  | .boolOp op vs, st =>
    let r := renExprs vs st
    (.boolOp op r.1, r.2)
  | .compare l ops cs, st =>
    let rl := renExpr l st
    let rc := renExprs cs rl.2
    (.compare rl.1 ops rc.1, rc.2)
  | .call f args, st =>
    let rf := renExpr f st
    let ra := renExprs args rf.2
    (.call rf.1 ra.1, ra.2)
  | .tupleE elts c, st =>
    let r := renExprs elts st
    (.tupleE r.1 c, r.2)
  | .listE elts c, st =>
    let r := renExprs elts st
    (.listE r.1 c, r.2)

/-- Rename a list of expressions left to right. -/
def renExprs : List Expr → LocalRenSt → List Expr × LocalRenSt
  | [], st => ([], st)
  | e :: rest, st =>
    let r := renExpr e st
    let rr := renExprs rest r.2
    (r.1 :: rr.1, rr.2)

/-- Rename an optional expression. -/
def renOptExpr : Option Expr → LocalRenSt → Option Expr × LocalRenSt
  | none, st => (none, st)
  | some e, st =>
    let r := renExpr e st
    (some r.1, r.2)

/-- The `_LocalRenamer` transformer on statements: `visit_arg` renames
every parameter name; function and class names have no visitor and stay
as they are; compound statements recurse in `_fields` order. -/
def renStmt : Stmt → LocalRenSt → Stmt × LocalRenSt
  | .functionDef nm args body, st =>
    let ra := renArgs args st
    let rb := renStmts body ra.2
    (.functionDef nm ra.1 rb.1, rb.2)
  | .asyncFunctionDef nm args body, st =>
    let ra := renArgs args st
    let rb := renStmts body ra.2
    (.asyncFunctionDef nm ra.1 rb.1, rb.2)
  | .classDef nm body, st =>
    let rb := renStmts body st
    (.classDef nm rb.1, rb.2)
  | .assign targets value, st =>
    let rt := renExprs targets st
    let rv := renExpr value rt.2
    (.assign rt.1 rv.1, rv.2)
  | .augAssign target op value, st =>
    let rt := renExpr target st
    let rv := renExpr value rt.2
    (.augAssign rt.1 op rv.1, rv.2)
  | .annAssign target annot value, st =>
    let rt := renExpr target st
    let ra := renExpr annot rt.2
    let rv := renOptExpr value ra.2
    (.annAssign rt.1 ra.1 rv.1, rv.2)
  | .forS target iter body orelse, st =>
    let rt := renExpr target st
    let ri := renExpr iter rt.2
    let rb := renStmts body ri.2
    let ro := renStmts orelse rb.2
    (.forS rt.1 ri.1 rb.1 ro.1, ro.2)
  | .whileS test body orelse, st =>
    let rt := renExpr test st
    let rb := renStmts body rt.2
    let ro := renStmts orelse rb.2
    (.whileS rt.1 rb.1 ro.1, ro.2)
  | .ifS test body orelse, st =>
    let rt := renExpr test st
    let rb := renStmts body rt.2
    let ro := renStmts orelse rb.2
    (.ifS rt.1 rb.1 ro.1, ro.2)
  | .returnS value, st =>
    let rv := renOptExpr value st
    (.returnS rv.1, rv.2)
  | .exprS value, st =>
    let rv := renExpr value st
    (.exprS rv.1, rv.2)
  | .passS, st => (.passS, st)

/-- Rename the `ast.arg` nodes of a parameter list (`visit_arg`). -/
def renArgs : List String → LocalRenSt → List String × LocalRenSt
  | [], st => ([], st)
  | a :: rest, st =>
    let r := localCanonical st a
    let rr := renArgs rest r.1
    (r.2 :: rr.1, rr.2)

/-- Rename a list of statements left to right. -/
def renStmts : List Stmt → LocalRenSt → List Stmt × LocalRenSt
  | [], st => ([], st)
  | s :: rest, st =>
    let r := renStmt s st
    let rr := renStmts rest r.2
    (r.1 :: rr.1, rr.2)

end

/-- Deep-copy a function node and rename its variables with a fresh local
counter starting at 1 (`_local_canonical_renamer`). -/
def _local_canonical_renamer (func_node : Stmt) : Stmt :=
  (renStmt func_node ⟨[], 0⟩).1

mutual

/-- The names used in load position anywhere under an expression
(the `_used_names` helper: `Name` nodes with `Load` context, collected
by `ast.walk`). -/
def Expr.usedNames : Expr → Finset String
  | .name id c => if c = Ctx.load then {id} else ∅
  | .constant _ => ∅
  | .binOp l _ r => l.usedNames ∪ r.usedNames
  | .boolOp _ vs => Expr.usedNamesList vs
  | .compare l _ cs => l.usedNames ∪ Expr.usedNamesList cs
  | .call f args => f.usedNames ∪ Expr.usedNamesList args
  | .tupleE elts _ => Expr.usedNamesList elts
  | .listE elts _ => Expr.usedNamesList elts

/-- Used names of a list of expressions. -/
def Expr.usedNamesList : List Expr → Finset String
  | [] => ∅
  | e :: rest => e.usedNames ∪ Expr.usedNamesList rest

end

/-- Assignment-target names (the `_targets` helper): a simple `Name`
target, or the `Name` elements of a `Tuple`/`List` destructuring. -/
def _targets (nodes : List Expr) : List String :=
  nodes.flatMap fun t =>
    match t with
    | .name id _ => [id]
    | .tupleE elts _ =>
      elts.filterMap fun e =>
        match e with
        | .name id _ => some id
        | _ => none
    | .listE elts _ =>
      elts.filterMap fun e =>
        match e with
        | .name id _ => some id
        | _ => none
    | _ => []

/-- The mutable state of the `_DFG` visitor: the `defined` set and the
`edges` set, shared across the whole scope visit. -/
structure DfgSt where
  defined : Finset String
  edges : Finset (String × String)

mutual

/-- The `_DFG` visitor (`_dataflow_edges_for_scope`): `Assign`,
`AugAssign`, `AnnAssign` and `For` record definitions and emit
`(use, def)` edges; `FunctionDef` adds its parameters to `defined`;
`Return` emits `(use, "__return__")` edges for previously-defined uses;
every other statement only recurses (`generic_visit`).  Expressions
contain no statements in this sublanguage, so recursion into them is a
no-op and is omitted. -/
def dfgStmt : Stmt → DfgSt → DfgSt
  | .assign targets value, st =>
    let used := value.usedNames
    (_targets targets).foldl
      (fun acc d =>
        { defined := insert d acc.defined,
          edges := acc.edges ∪ (used.filter (fun u => u ≠ d)).image (fun u => (u, d)) })
      st
  | .augAssign target _ value, st =>
    match target with
    | .name d _ =>
      { defined := insert d st.defined,
        edges := st.edges ∪ (value.usedNames.filter (fun u => u ≠ d)).image (fun u => (u, d)) }
    | _ => st
  | .annAssign target _ value, st =>
    match value, target with
    | some v, .name d _ =>
      { defined := insert d st.defined,
        edges := st.edges ∪ (v.usedNames.filter (fun u => u ≠ d)).image (fun u => (u, d)) }
    | _, _ => st
  | .forS target iter body orelse, st =>
    let st1 :=
      match target with
      | .name d _ =>
        { defined := insert d st.defined,
          edges := st.edges ∪ iter.usedNames.image (fun u => (u, d)) }
      | _ => st
    dfgStmts orelse (dfgStmts body st1)
  | .functionDef _ args body, st =>
    dfgStmts body { st with defined := args.foldl (fun s a => insert a s) st.defined }
  | .asyncFunctionDef _ args body, st =>
    dfgStmts body { st with defined := args.foldl (fun s a => insert a s) st.defined }
  | .classDef _ body, st => dfgStmts body st
  | .whileS _ body orelse, st => dfgStmts orelse (dfgStmts body st)
  | .ifS _ body orelse, st => dfgStmts orelse (dfgStmts body st)
  | .returnS value, st =>
    match value with
    | some v =>
      { st with edges := st.edges ∪
          (v.usedNames.filter (fun u => u ∈ st.defined)).image (fun u => (u, "__return__")) }
    | none => st
  | .exprS _, st => st
  | .passS, st => st

/-- Visit a list of statements left to right. -/
def dfgStmts : List Stmt → DfgSt → DfgSt
  | [], st => st
  | s :: rest, st => dfgStmts rest (dfgStmt s st)

end

/-- Extract data-dependency edges from a single scope
(`_dataflow_edges_for_scope`). -/
def _dataflow_edges_for_scope (scope_node : Stmt) : Finset (String × String) :=
  (dfgStmt scope_node ⟨∅, ∅⟩).edges

mutual

/-- All `FunctionDef` / `AsyncFunctionDef` subtrees of a statement,
including nested ones (the `ast.walk` + `isinstance` filter of
`_build_dataflow_hashes`; only a set union and a sum are folded over the
result, so the breadth-first order of `ast.walk` is irrelevant and the
collection is depth-first). -/
def Stmt.funcNodes : Stmt → List Stmt
  | .functionDef nm args body =>
    .functionDef nm args body :: Stmt.funcNodesList body
  | .asyncFunctionDef nm args body =>
    .asyncFunctionDef nm args body :: Stmt.funcNodesList body
  | .classDef _ body => Stmt.funcNodesList body
  | .forS _ _ body orelse => Stmt.funcNodesList body ++ Stmt.funcNodesList orelse
  | .whileS _ body orelse => Stmt.funcNodesList body ++ Stmt.funcNodesList orelse
  | .ifS _ body orelse => Stmt.funcNodesList body ++ Stmt.funcNodesList orelse
  | _ => []

/-- Function subtrees of a list of statements. -/
def Stmt.funcNodesList : List Stmt → List Stmt
  | [] => []
  | s :: rest => s.funcNodes ++ Stmt.funcNodesList rest

end

/-- Serialisation and digest of one data-flow edge (`"DFG_EDGE:s->d"`). -/
def dfgEdgeHash (H : String → String) (e : String × String) : String :=
  H ("DFG_EDGE:" ++ e.1 ++ "->" ++ e.2)

/-- Extract data-dependency edges per function — after the local
re-normalisation — and hash them (`_build_dataflow_hashes`); returns
`(hash_set, total_raw_edge_count)`. -/
def _build_dataflow_hashes (H : String → String) (tree : PyModule) :
    Finset String × ℕ :=
  (Stmt.funcNodesList tree.body).foldl
    (fun acc node =>
      let local_node := _local_canonical_renamer node
      let edges := _dataflow_edges_for_scope local_node
      (acc.1 ∪ edges.image (dfgEdgeHash H), acc.2 + edges.card))
    (∅, 0)

/-- The value the `similarity` local variable takes in
`compute_dataflow_similarity` (same symmetric empty-set guard as the CFG
layer). -/
def dataflow_similarity_value (hashed_a hashed_b : Finset String) : ℚ :=
  if hashed_a = ∅ ∧ hashed_b = ∅ then 1
  else if hashed_a ∪ hashed_b = ∅ then 0
  else ((hashed_a ∩ hashed_b).card : ℚ) / (hashed_a ∪ hashed_b).card

/-- Build per-function data-dependency graphs and compute Jaccard
similarity over the hashed edge sets (`compute_dataflow_similarity`). -/
def compute_dataflow_similarity (H : String → String) (tree_a tree_b : PyModule) :
    DataFlowResult :=
  let ra := _build_dataflow_hashes H tree_a
  let rb := _build_dataflow_hashes H tree_b
  { similarity := pyRound (dataflow_similarity_value ra.1 rb.1) 6,
    edges_file1 := ra.1.card,
    edges_file2 := rb.1.card,
    shared_edges := (ra.1 ∩ rb.1).card }

/-- Run all three similarity layers and aggregate into a weighted score
(`compute_advanced_similarity`).  `w_ast`, `w_cfg` and `w_dataflow` are
the weights `_weight` reads from the environment (defaults
`0.4 / 0.3 / 0.3`). -/
def compute_advanced_similarity (H : String → String)
    (w_ast w_cfg w_dataflow : ℚ)
    (analysis_a analysis_b : FileAnalysis)
    (normalised_tree_a normalised_tree_b : PyModule) : AdvancedResult :=
  let ast_result := compute_ast_similarity analysis_a analysis_b
  let cfg_result := compute_cfg_similarity H normalised_tree_a normalised_tree_b
  let df_result := compute_dataflow_similarity H normalised_tree_a normalised_tree_b
  let final := w_ast * ast_result.similarity
    + w_cfg * cfg_result.similarity
    + w_dataflow * df_result.similarity
  { ast := ast_result,
    cfg := cfg_result,
    dataflow := df_result,
    final_similarity_score := pyRound final 6,
    weights := (pyRound w_ast 4, pyRound w_cfg 4, pyRound w_dataflow 4) }

/-! ## `normalizer.py` — the Python-AST normaliser (`_NameCanonicalizer`)

The transformer keeps two canonical-name dicts (`var_map`, `func_map`)
with their counters; it has `visit_Module`, `visit_FunctionDef`,
`visit_AsyncFunctionDef`, `visit_ClassDef`, `visit_Name`,
`visit_Constant` and `visit_Call` methods, and every other node gets the
default `generic_visit` (children in `_fields` order).  Note that it has
no class-name map: `visit_ClassDef` only strips the docstring. -/

/-- State of `_NameCanonicalizer`. -/
structure NSt where
  var_map : List (String × String)
  func_map : List (String × String)
  var_counter : ℕ
  func_counter : ℕ

/-- Return a stable canonical name for a variable identifier
(`_canonical_var`). -/
def NSt.canonicalVar (st : NSt) (original : String) : NSt × String :=
  match assocFind st.var_map original with
  | some v => (st, v)
  | none =>
    let nm := "var_" ++ toString (st.var_counter + 1)
    ({ st with var_map := st.var_map ++ [(original, nm)],
               var_counter := st.var_counter + 1 }, nm)

/-- Return a stable canonical name for a function identifier
(`_canonical_func`). -/
def NSt.canonicalFunc (st : NSt) (original : String) : NSt × String :=
  match assocFind st.func_map original with
  | some v => (st, v)
  | none =>
    let nm := "func_" ++ toString (st.func_counter + 1)
    ({ st with func_map := st.func_map ++ [(original, nm)],
               func_counter := st.func_counter + 1 }, nm)

/-- Canonicalise each parameter name in order (the
`for arg in node.args.args` loop of `visit_FunctionDef`). -/
def NSt.canonicalVarArgs (st : NSt) : List String → NSt × List String
  | [] => (st, [])
  | a :: rest =>
    let r := st.canonicalVar a
    let rr := r.1.canonicalVarArgs rest
    (rr.1, r.2 :: rr.2)

/-- Remove a leading docstring — a first `Expr` statement whose value is
a string `Constant` — from a body (`_strip_docstrings`). -/
def _strip_docstrings (body : List Stmt) : List Stmt :=
  match body with
  | .exprS (.constant (.strV _)) :: rest => rest
  | _ => body

mutual

/-- `_NameCanonicalizer` on expressions.  `visit_Name` renames through
the variable map (whatever the context); `visit_Constant` overwrites the
literal with the string `"CONST"`; `visit_Call` canonicalises a simple
`Name` callee through the function map and visits the arguments; other
expressions are `generic_visit` in `_fields` order. -/
def normExpr : Expr → NSt → Expr × NSt
  | .name id c, st =>
    let r := st.canonicalVar id
    (.name r.2 c, r.1)
  | .constant _, st => (.constant (.strV "CONST"), st)
  | .binOp l op r, st =>
    let rl := normExpr l st
    let rr := normExpr r rl.2
    (.binOp rl.1 op rr.1, rr.2)
  | .boolOp op vs, st =>
    let r := normExprs vs st
    (.boolOp op r.1, r.2)
  | .compare l ops cs, st =>
    let rl := normExpr l st
    let rc := normExprs cs rl.2
    (.compare rl.1 ops rc.1, rc.2)
  | .call f args, st =>
    let rf :=
      match f with
      | .name fid fc =>
        let r := st.canonicalFunc fid
        ((Expr.name r.2 fc), r.1)
      | g => normExpr g st
    let ra := normExprs args rf.2
    (.call rf.1 ra.1, ra.2)
  | .tupleE elts c, st =>
    let r := normExprs elts st
    (.tupleE r.1 c, r.2)
  | .listE elts c, st =>
    let r := normExprs elts st
    (.listE r.1 c, r.2)
termination_by e _ => sizeOf e

/-- Normalise a list of expressions left to right. -/
def normExprs : List Expr → NSt → List Expr × NSt
  | [], st => ([], st)
  | e :: rest, st =>
    let r := normExpr e st
    let rr := normExprs rest r.2
    (r.1 :: rr.1, rr.2)
termination_by l _ => sizeOf l

end

/-- Normalise an optional expression. -/
def normOptExpr : Option Expr → NSt → Option Expr × NSt
  | none, st => (none, st)
  | some e, st =>
    let r := normExpr e st
    (some r.1, r.2)

mutual

/-- `_NameCanonicalizer` on statements.  Function-like nodes rename their
name and parameters and strip their docstring; `visit_ClassDef` strips
the docstring and leaves the class name untouched; everything else is
`generic_visit`.  (`_strip_docstrings` is inlined as its defining `match`
so the recursion stays structural.) -/
def normStmt : Stmt → NSt → Stmt × NSt
  | .functionDef nm args body, st =>
    let rn := st.canonicalFunc nm
    let ra := rn.1.canonicalVarArgs args
    let rb :=
      match body with
      | .exprS (.constant (.strV _)) :: rest => normStmts rest ra.1
      | other => normStmts other ra.1
    (.functionDef rn.2 ra.2 rb.1, rb.2)
  | .asyncFunctionDef nm args body, st =>
    let rn := st.canonicalFunc nm
    let ra := rn.1.canonicalVarArgs args
    let rb :=
      match body with
      | .exprS (.constant (.strV _)) :: rest => normStmts rest ra.1
      | other => normStmts other ra.1
    (.asyncFunctionDef rn.2 ra.2 rb.1, rb.2)
  | .classDef nm body, st =>
    let rb :=
      match body with
      | .exprS (.constant (.strV _)) :: rest => normStmts rest st
      | other => normStmts other st
    (.classDef nm rb.1, rb.2)
  | .assign targets value, st =>
    let rt := normExprs targets st
    let rv := normExpr value rt.2
    (.assign rt.1 rv.1, rv.2)
  | .augAssign target op value, st =>
    let rt := normExpr target st
    let rv := normExpr value rt.2
    (.augAssign rt.1 op rv.1, rv.2)
  | .annAssign target annot value, st =>
    let rt := normExpr target st
    let ra := normExpr annot rt.2
    let rv := normOptExpr value ra.2
    (.annAssign rt.1 ra.1 rv.1, rv.2)
  | .forS target iter body orelse, st =>
    let rt := normExpr target st
    let ri := normExpr iter rt.2
    let rb := normStmts body ri.2
    let ro := normStmts orelse rb.2
    (.forS rt.1 ri.1 rb.1 ro.1, ro.2)
  | .whileS test body orelse, st =>
    let rt := normExpr test st
    let rb := normStmts body rt.2
    let ro := normStmts orelse rb.2
    (.whileS rt.1 rb.1 ro.1, ro.2)
  | .ifS test body orelse, st =>
    let rt := normExpr test st
    let rb := normStmts body rt.2
    let ro := normStmts orelse rb.2
    (.ifS rt.1 rb.1 ro.1, ro.2)
  | .returnS value, st =>
    let rv := normOptExpr value st
    (.returnS rv.1, rv.2)
  | .exprS value, st =>
    let rv := normExpr value st
    (.exprS rv.1, rv.2)
  | .passS, st => (.passS, st)
termination_by s _ => sizeOf s

/-- Normalise a list of statements left to right. -/
def normStmts : List Stmt → NSt → List Stmt × NSt
  | [], st => ([], st)
  | s :: rest, st =>
    let r := normStmt s st
    let rr := normStmts rest r.2
    (r.1 :: rr.1, rr.2)
termination_by l _ => sizeOf l

end

/-- Accept a parsed module and return a normalised copy
(`normalize_ast`; `visit_Module` strips the module docstring and then
visits the body). -/
def normalize_ast (m : PyModule) : PyModule :=
  ⟨(normStmts (_strip_docstrings m.body) ⟨[], [], 0, 0⟩).1⟩

mutual

/-- Declared class names of a statement, in visit order (a projection
used to observe that the Python-AST normaliser leaves class names
unchanged). -/
def Stmt.classNames : Stmt → List String
  | .classDef nm body => nm :: Stmt.classNamesList body
  | .functionDef _ _ body => Stmt.classNamesList body
  | .asyncFunctionDef _ _ body => Stmt.classNamesList body
  | .forS _ _ body orelse => Stmt.classNamesList body ++ Stmt.classNamesList orelse
  | .whileS _ body orelse => Stmt.classNamesList body ++ Stmt.classNamesList orelse
  | .ifS _ body orelse => Stmt.classNamesList body ++ Stmt.classNamesList orelse
  | _ => []

/-- Declared class names of a statement list. -/
def Stmt.classNamesList : List Stmt → List String
  | [] => []
  | s :: rest => s.classNames ++ Stmt.classNamesList rest

end

/-! ## `unified_normalizer.py` — the language-agnostic normaliser -/

/-- React hook names to normalise (`_REACT_HOOKS`). -/
def _REACT_HOOKS : List String :=
  ["useState", "useEffect", "useContext", "useReducer",
   "useCallback", "useMemo", "useRef", "useImperativeHandle",
   "useLayoutEffect", "useDebugValue", "useTransition",
   "useDeferredValue", "useId", "useSyncExternalStore",
   "useInsertionEffect"]

/-- Function-like node types (`_FUNC_TYPES`). -/
def _FUNC_TYPES : List String :=
  ["FunctionDef", "AsyncFunctionDef",
   "FunctionDeclaration", "FunctionExpression",
   "ArrowFunction", "MethodDefinition", "GeneratorFunction"]

/-- Class-like node types (`_CLASS_TYPES`). -/
def _CLASS_TYPES : List String :=
  ["ClassDef", "ClassDeclaration"]

/-- JSX component node types (`_JSX_COMPONENT_TYPES`). -/
def _JSX_COMPONENT_TYPES : List String :=
  ["JSXElement", "JSXSelfClosingElement",
   "JSXOpeningElement", "JSXClosingElement"]

mutual

/-- Structural node count of a tree, ignoring all string payloads (the
termination measure for `UnifiedNormalizer.normalize`, which renames and
reorders children before recursing into them). -/
def IRNode.msize : IRNode → ℕ
  | .mk _ _ _ _ _ _ cs => IRNode.msizeList cs + 1

/-- Structural node count of a list of trees. -/
def IRNode.msizeList : List IRNode → ℕ
  | [] => 0
  | c :: rest => c.msize + IRNode.msizeList rest

end

/-- State of `UnifiedNormalizer`: the four canonical-name dicts and their
counters. -/
structure UNState where
  var_map : List (String × String)
  func_map : List (String × String)
  class_map : List (String × String)
  hook_map : List (String × String)
  var_counter : ℕ
  func_counter : ℕ
  class_counter : ℕ
  hook_counter : ℕ

/-- The empty `UnifiedNormalizer` state (`__init__`). -/
def UNState.init : UNState := ⟨[], [], [], [], 0, 0, 0, 0⟩

/-- `_canonical_var` of `UnifiedNormalizer`. -/
def UNState.canonicalVar (st : UNState) (n : String) : UNState × String :=
  match assocFind st.var_map n with
  | some v => (st, v)
  | none =>
    let nm := "var_" ++ toString (st.var_counter + 1)
    ({ st with var_map := st.var_map ++ [(n, nm)],
               var_counter := st.var_counter + 1 }, nm)

/-- `_canonical_func` of `UnifiedNormalizer`. -/
def UNState.canonicalFunc (st : UNState) (n : String) : UNState × String :=
  match assocFind st.func_map n with
  | some v => (st, v)
  | none =>
    let nm := "func_" ++ toString (st.func_counter + 1)
    ({ st with func_map := st.func_map ++ [(n, nm)],
               func_counter := st.func_counter + 1 }, nm)

/-- `_canonical_class` of `UnifiedNormalizer`. -/
def UNState.canonicalClass (st : UNState) (n : String) : UNState × String :=
  match assocFind st.class_map n with
  | some v => (st, v)
  | none =>
    let nm := "class_" ++ toString (st.class_counter + 1)
    ({ st with class_map := st.class_map ++ [(n, nm)],
               class_counter := st.class_counter + 1 }, nm)

/-- `_canonical_hook` of `UnifiedNormalizer`. -/
def UNState.canonicalHook (st : UNState) (n : String) : UNState × String :=
  match assocFind st.hook_map n with
  | some v => (st, v)
  | none =>
    let nm := "hook_" ++ toString (st.hook_counter + 1)
    ({ st with hook_map := st.hook_map ++ [(n, nm)],
               hook_counter := st.hook_counter + 1 }, nm)

/-- Canonicalise a list of parameter names in order (the
`[self._canonical_var(a) for a in ir["args"]]` comprehension). -/
def UNState.canonicalVars (st : UNState) : List String → UNState × List String
  | [] => (st, [])
  | a :: rest =>
    let r := st.canonicalVar a
    let rr := r.1.canonicalVars rest
    (rr.1, r.2 :: rr.2)

/-- The `if/elif` identifier chain of `UnifiedNormalizer.normalize`
(keyed on the original `node_type`), producing the updated state, the
rewritten `name` and `args`, and the children (with the callee child's
name rewritten in the `CallExpression` case). -/
def UnifiedNormalizer.normalizeStep (st : UNState) (ty : String) (nm : Option String)
    (ar : Option (List String)) (cs : List IRNode) :
    UNState × Option String × Option (List String) × List IRNode :=
  if ty ∈ _FUNC_TYPES ∧ nm.isSome then
    let r := st.canonicalFunc (nm.getD "")
    match ar with
    | some l =>
      let q := r.1.canonicalVars l
      (q.1, some r.2, some q.2, cs)
    | none => (r.1, some r.2, none, cs)
  else if ty ∈ _CLASS_TYPES ∧ nm.isSome then
    let r := st.canonicalClass (nm.getD "")
    (r.1, some r.2, ar, cs)
  else if ty ∈ _JSX_COMPONENT_TYPES ∧ nm.isSome then
    let r := st.canonicalFunc (nm.getD "")
    (r.1, some r.2, ar, cs)
  else if ty = "CallExpression" then
    match cs with
    | [] => (st, nm, ar, [])
    | .mk ft fn fv fa fs fe fc :: rest =>
      let fname := fn.getD ""
      if fname ∈ _REACT_HOOKS then
        let r := st.canonicalHook fname
        (r.1, nm, ar, .mk ft (some r.2) fv fa fs fe fc :: rest)
      else if fn.isSome then
        let r := st.canonicalFunc fname
        (r.1, nm, ar, .mk ft (some r.2) fv fa fs fe fc :: rest)
      else (st, nm, ar, .mk ft fn fv fa fs fe fc :: rest)
  else if nm.isSome ∧
      ty ∉ ["ImportDeclaration", "ExportDeclaration", "Import", "ImportFrom"] then
    let r := st.canonicalVar (nm.getD "")
    (r.1, some r.2, ar, cs)
  else (st, nm, ar, cs)

/-- The JSX-attribute reordering of `UnifiedNormalizer.normalize`:
for opening / self-closing elements, the `JSXAttribute` children are
sorted by name (stably) and concatenated after the other children. -/
def jsxSortChildren (ty : String) (cs : List IRNode) : List IRNode :=
  if ty ∈ ["JSXOpeningElement", "JSXSelfClosingElement"] then
    let attrs := cs.filter (fun c => c.type == "JSXAttribute")
    let non_attrs := cs.filter (fun c => c.type != "JSXAttribute")
    non_attrs ++ attrs.insertionSort (fun a b => a.name.getD "" ≤ b.name.getD "")
  else cs

mutual

/-- `UnifiedNormalizer.normalize`: the identifier chain
(`normalizeStep`), then `value → "CONST"`, the
`ArrowFunction → FunctionDeclaration` rewrite, the JSX-attribute sort
(`jsxSortChildren`), and finally the recursion into the (possibly
renamed and reordered) children with the state threaded through. -/
def UnifiedNormalizer.normalize : UNState → IRNode → UNState × IRNode
  | st, .mk ty nm vl ar sl el cs =>
    let step := UnifiedNormalizer.normalizeStep st ty nm ar cs
    let vl1 := vl.map (fun _ => "CONST")
    let ty1 := if ty = "ArrowFunction" then "FunctionDeclaration" else ty
    let cs2 := jsxSortChildren ty step.2.2.2
    let r := UnifiedNormalizer.normalizeList step.1 cs2
    (r.1, .mk ty1 step.2.1 vl1 step.2.2.1 sl el r.2)
termination_by st n => (IRNode.msize n, 0)
decreasing_by
  simp_wf
  have happ : ∀ a b : List IRNode,
      IRNode.msizeList (a ++ b) = IRNode.msizeList a + IRNode.msizeList b := by
    intro a b
    induction a with
    | nil => simp [IRNode.msizeList]
    | cons c cst ih => simp [IRNode.msizeList, ih]; omega
  have hperm : ∀ a b : List IRNode, a.Perm b →
      IRNode.msizeList a = IRNode.msizeList b := by
    intro a b h
    induction h with
    | nil => rfl
    | cons x _ ih => simp [IRNode.msizeList, ih]
    | swap x y l => simp [IRNode.msizeList]; omega
    | trans _ _ ih1 ih2 => omega
  have hsplit : ∀ l : List IRNode,
      IRNode.msizeList (l.filter (fun c => c.type != "JSXAttribute")) +
        IRNode.msizeList (l.filter (fun c => c.type == "JSXAttribute")) =
        IRNode.msizeList l := by
    intro l
    induction l with
    | nil => simp [IRNode.msizeList]
    | cons c cst ih =>
      by_cases h : c.type = "JSXAttribute" <;>
        simp [List.filter_cons, h, IRNode.msizeList] <;> omega
  have hjsx : ∀ (t : String) (X : List IRNode),
      IRNode.msizeList (jsxSortChildren t X) = IRNode.msizeList X := by
    intro t X
    unfold jsxSortChildren
    split
    · rw [happ, hperm _ _ (List.perm_insertionSort _ _), hsplit]
    · rfl
  have hstep : ∀ (st : UNState) (ty : String) (nm : Option String)
      (ar : Option (List String)) (cs : List IRNode),
      IRNode.msizeList (UnifiedNormalizer.normalizeStep st ty nm ar cs).2.2.2 =
        IRNode.msizeList cs := by
    intro st ty nm ar cs
    unfold UnifiedNormalizer.normalizeStep
    repeat' split
    all_goals simp only [apply_ite
      (fun p : UNState × Option String × Option (List String) × List IRNode => p.2.2.2),
      apply_ite IRNode.msizeList, IRNode.msize, IRNode.msizeList, ite_self]
  apply Prod.Lex.left
  rw [hjsx, hstep]
  simp only [IRNode.msize]
  omega

/-- Normalise a list of children left to right, threading the state. -/
def UnifiedNormalizer.normalizeList : UNState → List IRNode → UNState × List IRNode
  | st, [] => (st, [])
  | st, c :: rest =>
    let r := UnifiedNormalizer.normalize st c
    let rr := UnifiedNormalizer.normalizeList r.1 rest
    (rr.1, r.2 :: rr.2)
termination_by st l => (IRNode.msizeList l, 1)
decreasing_by
  · simp_wf
    have h : IRNode.msize c ≤ IRNode.msizeList (c :: rest) := by
      simp [IRNode.msizeList]
    rcases lt_or_eq_of_le h with h1 | h1
    · exact Prod.Lex.left _ _ h1
    · rw [h1]
      exact Prod.Lex.right _ (by omega)
  · simp_wf
    apply Prod.Lex.left
    have h : 1 ≤ IRNode.msize c := by
      cases c
      simp [IRNode.msize]
    simp [IRNode.msizeList]
    omega

end

/-- Accept a unified-IR tree and return a normalised deep copy
(`normalize_ir`). -/
def normalize_ir (ir : IRNode) : IRNode :=
  (UnifiedNormalizer.normalize UNState.init ir).2

mutual

/-- Rename exactly the class names of a tree: the name of every node
whose type is class-like is mapped through `σ`; everything else is kept.
Two IR trees "differing only in class names" are `t` and
`renameClasses σ t` for an injective `σ`. -/
def renameClasses (σ : String → String) : IRNode → IRNode
  | .mk ty nm vl ar sl el cs =>
    .mk ty (if ty ∈ _CLASS_TYPES then nm.map σ else nm) vl ar sl el
      (renameClassesList σ cs)

/-- Class renaming over a list of trees. -/
def renameClassesList (σ : String → String) : List IRNode → List IRNode
  | [] => []
  | c :: rest => renameClasses σ c :: renameClassesList σ rest

end

mutual

/-- No class-like node sits as the first child (the callee slot) of a
`CallExpression`.  Real parser output always satisfies this; it rules
out the degenerate trees on which `UnifiedNormalizer` would read a class
name through the callee branch before the class node itself is
visited. -/
def noClassCallee : IRNode → Bool
  | .mk ty _ _ _ _ _ cs =>
    (if ty == "CallExpression" then
      match cs with
      | [] => true
      | first :: _ => !(decide (first.type ∈ _CLASS_TYPES))
     else true) && noClassCalleeList cs

/-- `noClassCallee` over a list of trees. -/
def noClassCalleeList : List IRNode → Bool
  | [] => true
  | c :: rest => noClassCallee c && noClassCalleeList rest

end

mutual

/-- Names of class-like nodes of an IR tree, in visit order (a projection
used to observe the class placeholders the unified normaliser
assigns). -/
def IRNode.classNodeNames : IRNode → List String
  | .mk ty nm _ _ _ _ cs =>
    (if ty ∈ _CLASS_TYPES then nm.toList else []) ++ IRNode.classNodeNamesList cs

/-- Class-node names over a list of trees. -/
def IRNode.classNodeNamesList : List IRNode → List String
  | [] => []
  | c :: rest => c.classNodeNames ++ IRNode.classNodeNamesList rest

end

/-! ## `similarity.py` — the pairwise comparator

The Gemini semantic judge (`_maybe_run_llm` / `llm_judge.py`) is an
external collaborator: it performs network calls and "may be absent or
fail; its absence never fails the analysis".  It is modelled as absent
(`evaluate_pair` returning `None`), so pair records carry no
`llm_verdict` / `refined_verdict` keys; no claim in scope concerns those
keys. -/

/-- One `{line_number, code}` entry of a code snippet. -/
structure SnippetLine where
  line_number : ℤ
  code : String
deriving DecidableEq

/-- One matched code region. -/
structure MatchedRegion where
  file1_lines : ℤ × ℤ
  file2_lines : ℤ × ℤ
  file1_code : List SnippetLine
  file2_code : List SnippetLine
deriving DecidableEq

/-- One similarity-pair record of `compute_similarity` /
`compute_cross_similarity`. -/
structure PairResult where
  file1 : String
  file2 : String
  similarity_score : ℚ
  matching_regions : List MatchedRegion
deriving DecidableEq

/-- Integer range `[a, b)` as a list, the model of Python
`range(a, b)`. -/
def intRange (a b : ℤ) : List ℤ :=
  (List.range (b - a).toNat).map (fun k : ℕ => a + (k : ℤ))

/-- Extract source lines between `start` and `stop` (1-indexed,
inclusive), clamping both ends to the valid range
(`_extract_code_snippet`; the Python parameters are `start` and `end`).
List indexing `source_lines[lineno - 1]` is modelled with `List.getD`;
the safety theorem below shows the produced indices are always
non-negative and in bounds, so the default is never consulted (and so
the Python indexing can neither raise `IndexError` nor wrap around
negatively). -/
def _extract_code_snippet (source_lines : List String) (start stop : ℤ) :
    List SnippetLine :=
  let start1 := max 1 start
  let stop1 := min (source_lines.length : ℤ) stop
  (intRange start1 (stop1 + 1)).map fun lineno =>
    { line_number := lineno,
      code := source_lines.getD (lineno - 1).toNat "" }

/-- Build the matched code-region list from the shared AST subtree
hashes (`_matching_regions`).  The Python `for common_hash in
intersection` iterates a `set` in unspecified order; the embedding
enumerates the intersection in sorted order (the only consequence of the
set order is the relative order of regions whose `file1` ranges start on
the same line, after the final stable sort).  The inner fold carries the
`seen` deduplication set and the accumulated region list. -/
def _matching_regions (analysis_a analysis_b : FileAnalysis) : List MatchedRegion :=
  let intersection := analysis_a.hash_set ∩ analysis_b.hash_set
  let step := fun (acc : Finset ((ℤ × ℤ) × (ℤ × ℤ)) × List MatchedRegion)
      (common_hash : String) =>
    let lines_a := analysis_a.hash_to_lines common_hash
    let lines_b := analysis_b.hash_to_lines common_hash
    (crossPairs lines_a lines_b).foldl
      (fun acc2 lab =>
        let la := lab.1
        let lb := lab.2
        if la.1 = 0 ∨ lb.1 = 0 then acc2
        else if (la, lb) ∈ acc2.1 then acc2
        else
          (insert (la, lb) acc2.1,
           acc2.2 ++ [{ file1_lines := la, file2_lines := lb,
                        file1_code := _extract_code_snippet analysis_a.source_lines la.1 la.2,
                        file2_code := _extract_code_snippet analysis_b.source_lines lb.1 lb.2 }]))
      acc
  let built := ((intersection.sort (· ≤ ·)).foldl step (∅, [])).2
  built.insertionSort (fun r s => r.file1_lines.1 ≤ s.file1_lines.1)

/-- Return `(final_score, ast_score, cfg_score, dfg_score)` for a pair
(`_pair_similarity_detail`): the three-layer advanced score when both
analyses carry a normalised tree, else the plain Jaccard fallback. -/
def _pair_similarity_detail (H : String → String) (w_ast w_cfg w_dataflow : ℚ)
    (analysis_a analysis_b : FileAnalysis) : ℚ × ℚ × ℚ × ℚ :=
  match analysis_a.normalised_tree, analysis_b.normalised_tree with
  | some tree_a, some tree_b =>
    let adv := compute_advanced_similarity H w_ast w_cfg w_dataflow
      analysis_a analysis_b tree_a tree_b
    (adv.final_similarity_score, adv.ast.similarity,
     adv.cfg.similarity, adv.dataflow.similarity)
  | _, _ =>
    let set_a := analysis_a.hash_set
    let set_b := analysis_b.hash_set
    let union := set_a ∪ set_b
    let jaccard : ℚ :=
      if union = ∅ then 0 else ((set_a ∩ set_b).card : ℚ) / union.card
    (jaccard, jaccard, 0, 0)

/-- The pair record built for one qualifying pair (the loop body shared
by `compute_similarity` and `compute_cross_similarity`, with the LLM
judge absent). -/
def mkPairResult (H : String → String) (w_ast w_cfg w_dataflow : ℚ)
    (name_a name_b : String) (analysis_a analysis_b : FileAnalysis) : PairResult :=
  { file1 := name_a,
    file2 := name_b,
    similarity_score :=
      pyRound (_pair_similarity_detail H w_ast w_cfg w_dataflow analysis_a analysis_b).1 4,
    matching_regions := _matching_regions analysis_a analysis_b }

/-- Compare every unordered pair of files and return the suspicious
pairs, sorted by score descending (`compute_similarity`).  The analyses
dict is an association list (`filename → FileAnalysis`); the code sorts
the filenames and walks all `i < j` pairs, skips a pair when its final
score is below `threshold`, and finally runs the stable descending sort
on `similarity_score`. -/
def compute_similarity (H : String → String) (w_ast w_cfg w_dataflow : ℚ)
    (analyses : List (String × FileAnalysis)) (threshold : ℚ) : List PairResult :=
  let sortedA := analyses.insertionSort (fun x y => x.1 ≤ y.1)
  let results :=
    ((offDiagPairs sortedA).filter (fun c =>
        ¬ (_pair_similarity_detail H w_ast w_cfg w_dataflow c.1.2 c.2.2).1 < threshold)).map
      (fun c => mkPairResult H w_ast w_cfg w_dataflow c.1.1 c.2.1 c.1.2 c.2.2)
  results.insertionSort (fun p q => q.similarity_score ≤ p.similarity_score)

/-- Compare every file of `group_a` against every file of `group_b`
(`compute_cross_similarity`); same loop body and final sort, but the
pair enumeration follows the two dicts' iteration (insertion) order. -/
def compute_cross_similarity (H : String → String) (w_ast w_cfg w_dataflow : ℚ)
    (group_a group_b : List (String × FileAnalysis)) (threshold : ℚ) : List PairResult :=
  let results :=
    ((crossPairs group_a group_b).filter (fun c =>
        ¬ (_pair_similarity_detail H w_ast w_cfg w_dataflow c.1.2 c.2.2).1 < threshold)).map
      (fun c => mkPairResult H w_ast w_cfg w_dataflow c.1.1 c.2.1 c.1.2 c.2.2)
  results.insertionSort (fun p q => q.similarity_score ≤ p.similarity_score)

/-! ## `graph_builder.py` — matrix and graph aggregation -/

/-- The fields of a pairwise-result dict that the aggregators read
(`pair["file1"]`, `pair["file2"]`, `pair["similarity_score"]`). -/
structure ScorePair where
  file1 : String
  file2 : String
  similarity_score : ℚ
deriving DecidableEq

/-- One edge of the similarity graph. -/
structure GraphEdge where
  source : String
  target : String
  weight : ℚ
deriving DecidableEq

/-- Convert pairwise similarity results into a node-edge graph
(`build_similarity_graph`): every file of `all_files` becomes a node
(sorted for determinism); results at or above `threshold` become edges
with `weight = round(score, 4)`, sorted by `(source, target)`. -/
def build_similarity_graph (results : List ScorePair) (all_files : List String)
    (threshold : ℚ) : List String × List GraphEdge :=
  let nodes := all_files.insertionSort (· ≤ ·)
  let edges :=
    (results.filter (fun pair => ¬ pair.similarity_score < threshold)).map
      (fun pair => { source := pair.file1, target := pair.file2,
                     weight := pyRound pair.similarity_score 4 })
  (nodes, edges.insertionSort (fun e f => strPairLe (e.source, e.target) (f.source, f.target)))

/-- The `idx` dict of `build_similarity_matrix`
(`{name: i for i, name in enumerate(filenames)}`; a later duplicate
filename overwrites an earlier one). -/
def matrixIdx (filenames : List String) : String → Option ℕ :=
  filenames.enum.foldl
    (fun m p => fun nm => if nm = p.2 then some p.1 else m nm)
    (fun _ => none)

/-- Functional update of one matrix cell. -/
def setCell (m : ℕ → ℕ → ℚ) (i j : ℕ) (v : ℚ) : ℕ → ℕ → ℚ :=
  fun a b => if a = i ∧ b = j then v else m a b

/-- The loop body of `build_similarity_matrix`: a pair whose two
filenames are present writes `round(score, 4)` into both symmetric
cells. -/
def matrixUpdate (idx : String → Option ℕ) (m : ℕ → ℕ → ℚ) (pair : ScorePair) :
    ℕ → ℕ → ℚ :=
  match idx pair.file1, idx pair.file2 with
  | some i, some j =>
    setCell (setCell m i j (pyRound pair.similarity_score 4)) j i
      (pyRound pair.similarity_score 4)
  | _, _ => m

/-- Build a symmetric similarity matrix from pairwise results
(`build_similarity_matrix`).  The `n × n` list-of-lists array is
modelled as a function on indices (statements about it quantify over
`i, j < filenames.length`): the identity-like initialisation puts `1.0`
on the diagonal and `0.0` elsewhere, then the pair loop runs
`matrixUpdate`. -/
def build_similarity_matrix (results : List ScorePair) (filenames : List String) :
    List String × (ℕ → ℕ → ℚ) :=
  let idx := matrixIdx filenames
  let base : ℕ → ℕ → ℚ := fun i j => if i = j then 1 else 0
  (filenames, results.foldl (matrixUpdate idx) base)

/-! ## Statement-side definitions

These definitions spell out, word for word, properties that the claims
assert about the code, to be compared with what the code computes. -/

/-- The claim's Jaccard-with-empty-set rule: if both sets are empty the
similarity is `1.0`; if exactly one is empty it is `0.0`; otherwise it
is `|A ∩ B| / |A ∪ B|`. -/
def jaccardEmptyRuleSpec (A B : Finset String) : ℚ :=
  if A = ∅ ∧ B = ∅ then 1
  else if (A = ∅ ∧ B ≠ ∅) ∨ (A ≠ ∅ ∧ B = ∅) then 0
  else ((A ∩ B).card : ℚ) / (A ∪ B).card

/-- The projection-consistency invariant of a `FileAnalysis` asserted by
claim C5: `hash_set` is the set of hashes of `subtree_infos`, and each
hash's entry list in `hash_to_lines` has length equal to the hash's
multiplicity in `subtree_infos`. -/
def fileAnalysisInv (fa : FileAnalysis) : Prop :=
  fa.hash_set = (fa.subtree_infos.map SubtreeInfo.hash).toFinset ∧
    ∀ h, (fa.hash_to_lines h).length = (fa.subtree_infos.map SubtreeInfo.hash).count h

/-- The same invariant on the internal collection state. -/
def hashStateInv (st : HashState) : Prop :=
  st.hash_set = (st.infos.map SubtreeInfo.hash).toFinset ∧
    ∀ h, (st.hash_to_lines h).length = (st.infos.map SubtreeInfo.hash).count h

/-- The ordering claim C6 makes on a result list: score strictly
descending, with ties broken by `(file1, file2)` ascending. -/
def pairDescTieRel (p q : PairResult) : Prop :=
  q.similarity_score < p.similarity_score ∨
    (p.similarity_score = q.similarity_score ∧
      strPairLe (p.file1, p.file2) (q.file1, q.file2))

/-- Plain descending order on scores (what the final `.sort` guarantees
without any tie-break). -/
def pairDescRel (p q : PairResult) : Prop :=
  q.similarity_score ≤ p.similarity_score

instance : DecidableRel pairDescTieRel := fun p q =>
  inferInstanceAs (Decidable (_ ∨ _))

instance : DecidableRel pairDescRel := fun p q =>
  inferInstanceAs (Decidable (_ ≤ _))

/-- Is a statement a (sync or async) function definition? -/
def isFuncStmt : Stmt → Bool
  | .functionDef _ _ _ => true
  | .asyncFunctionDef _ _ _ => true
  | _ => false

/-- Is an IR node type a function-definition type of the Python `ast`
(the `isinstance(node, (ast.FunctionDef, ast.AsyncFunctionDef))`
checks)? -/
def isFuncIRType (ty : String) : Bool :=
  ty == "FunctionDef" || ty == "AsyncFunctionDef"

/-- Rename the keys of a class-name map through `σ` (how the
`class_map` of a run on a class-renamed tree relates to the original
run's map). -/
def classRenameMap (σ : String → String) (m : List (String × String)) :
    List (String × String) :=
  m.map (fun p => (σ p.1, p.2))

/-- Transport a `UnifiedNormalizer` state along a class renaming: only
the `class_map` keys change. -/
def classRenameState (σ : String → String) (st : UNState) : UNState :=
  { st with class_map := classRenameMap σ st.class_map }

/-! # Theorems

General helper lemmas first, then the claim theorems C1–C10 with their
witnesses and counterexamples. -/

/-- Rounding an integer at any precision returns it unchanged. -/
theorem pyRound_intCast (z : ℤ) (n : ℕ) : pyRound (z : ℚ) n = z := by
  have h : ((z : ℚ) * 10 ^ n) = ((z * 10 ^ n : ℤ) : ℚ) := by push_cast; ring
  have hpow : ((10 : ℚ) ^ n) ≠ 0 := by positivity
  simp only [pyRound, roundHalfEven, h, Int.floor_intCast, sub_self]
  norm_num

/-- Rounding one gives one. -/
theorem pyRound_one (n : ℕ) : pyRound 1 n = 1 := by
  have := pyRound_intCast 1 n
  norm_num at this
  exact this

/-- Rounding zero gives zero. -/
theorem pyRound_zero (n : ℕ) : pyRound 0 n = 0 := by
  have := pyRound_intCast 0 n
  norm_num at this
  exact this

/-- Evaluation rule for `pyRound` when the scaled value is an integer. -/
theorem pyRound_eq_div (q : ℚ) (n : ℕ) (z : ℤ) (h : q * 10 ^ n = (z : ℚ)) :
    pyRound q n = (z : ℚ) / 10 ^ n := by
  simp only [pyRound, h, roundHalfEven, Int.floor_intCast, sub_self]
  norm_num

/-- Claim C1 (status: code bug), evaluated at the failing input.  For the
single-function file `def f(): y = x` — whose locally-renamed body is
`lv_1 = lv_2` — the data-flow fingerprinter emits the edge
`(lv_2, lv_1)` and hashes the token `DFG_EDGE:lv_2->lv_1`, although the
use `x` is never defined in the scope: the claim (and the docstring of
`_dataflow_edges_for_scope`, "a definition's RHS contains a use of a
previously-defined variable") requires that no edge be emitted for a
never-defined use.  The `u ∈ defined` check exists only for
`__return__` edges. -/
theorem C1_dataflow_edge_despite_undefined_use :
    _build_dataflow_hashes (fun s => s)
      ⟨[Stmt.functionDef "f" []
          [Stmt.assign [Expr.name "y" Ctx.store] (Expr.name "x" Ctx.load)]]⟩ =
      ({"DFG_EDGE:lv_2->lv_1"}, 1) ∧
    _dataflow_edges_for_scope
      (_local_canonical_renamer
        (Stmt.functionDef "f" []
          [Stmt.assign [Expr.name "y" Ctx.store] (Expr.name "x" Ctx.load)])) =
      {("lv_2", "lv_1")} := by
  constructor <;> decide

/-- Claim C2 (status: confirmed).  For every pair of files — i.e. for
every pair of CFG (or DFG) edge-hash sets — the similarity value the
code computes (`cfg_similarity_value` / `dataflow_similarity_value`, the
`similarity` local of `compute_cfg_similarity` /
`compute_dataflow_similarity`, which the result records store rounded to
6 decimals) satisfies the claimed rule: `1.0` when both sets are empty,
`0.0` when exactly one is empty, else `|A ∩ B| / |A ∪ B|`. -/
theorem C2_cfg_dfg_jaccard_empty_rules (hashed_a hashed_b : Finset String) :
    cfg_similarity_value hashed_a hashed_b = jaccardEmptyRuleSpec hashed_a hashed_b ∧
    dataflow_similarity_value hashed_a hashed_b = jaccardEmptyRuleSpec hashed_a hashed_b := by
  have main : cfg_similarity_value hashed_a hashed_b =
      jaccardEmptyRuleSpec hashed_a hashed_b := by
    by_cases ha : hashed_a = ∅ <;> by_cases hb : hashed_b = ∅
    · simp [cfg_similarity_value, jaccardEmptyRuleSpec, ha, hb]
    · simp [cfg_similarity_value, jaccardEmptyRuleSpec, ha, hb]
    · simp [cfg_similarity_value, jaccardEmptyRuleSpec, ha, hb]
    · simp [cfg_similarity_value, jaccardEmptyRuleSpec, ha, hb,
        Finset.union_eq_empty]
  exact ⟨main, main⟩

/-- One `setdefault(h, []).append(range)` update keeps the
`hash_to_lines` lengths equal to the hash multiplicities. -/
theorem count_update (A : List SubtreeInfo) (f : String → List (ℤ × ℤ))
    (hnew : String) (s e : ℤ)
    (h2 : ∀ h, (f h).length = (A.map SubtreeInfo.hash).count h) (h : String) :
    (if h = hnew then f hnew ++ [(s, e)] else f h).length =
      ((A.map SubtreeInfo.hash) ++ [hnew]).count h := by
  by_cases hh : h = hnew
  · subst hh
    simp [h2, List.count_append]
  · simp [hh, h2, List.count_append, List.count_cons]

mutual

/-- The collection state invariant is preserved by one `_collect` step. -/
theorem subtreeCollect_inv (trivial : List String) (H : String → String) :
    ∀ (t : IRNode) (st : HashState), hashStateInv st →
      hashStateInv (subtreeCollect trivial H t st).1
  | .mk ty nm vl ar sl el cs, st, hst => by
    have hrec := subtreeCollectList_inv trivial H cs st hst
    rw [subtreeCollect]
    by_cases htriv : ty ∈ trivial
    · simp only [htriv, if_true]
      exact hrec
    · simp only [htriv, if_false]
      obtain ⟨h1, h2⟩ := hrec
      refine ⟨?_, ?_⟩
      · simp [h1, List.toFinset_append, Finset.insert_eq, Finset.union_comm]
      · intro h
        rw [List.map_append, List.map_cons, List.map_nil]
        exact count_update _ _ _ _ _ h2 h

/-- The collection state invariant is preserved over a child list. -/
theorem subtreeCollectList_inv (trivial : List String) (H : String → String) :
    ∀ (l : List IRNode) (st : HashState), hashStateInv st →
      hashStateInv (subtreeCollectList trivial H l st).1
  | [], st, hst => by rw [subtreeCollectList]; exact hst
  | c :: rest, st, hst => by
    rw [subtreeCollectList]
    exact subtreeCollectList_inv trivial H rest _
      (subtreeCollect_inv trivial H c st hst)

end

/-- Claim C5 (status: confirmed).  Every `FileAnalysis` produced by
either hasher satisfies the projection-consistency invariant:
`hash_set` is exactly the set of hashes of `subtree_infos`, and for
every hash the number of `[start, end]` entries in `hash_to_lines`
equals the hash's multiplicity in `subtree_infos`. -/
theorem C5_fingerprint_projection_invariant (H : String → String) (t : IRNode) :
    fileAnalysisInv (hash_ir H t) ∧ fileAnalysisInv (generate_subtree_hashes H t) := by
  have hinit : hashStateInv HashState.init := by
    constructor <;> simp [HashState.init, hashStateInv]
  constructor
  · have := subtreeCollect_inv TRIVIAL_IR_TYPES H t HashState.init hinit
    exact this
  · have := subtreeCollect_inv _TRIVIAL_NODES H t HashState.init hinit
    exact this

/-- Membership in the integer range `[a, b)`. -/
theorem mem_intRange {a b x : ℤ} : x ∈ intRange a b ↔ a ≤ x ∧ x < b := by
  rw [intRange, List.mem_map]
  constructor
  · rintro ⟨k, hk, rfl⟩
    rw [List.mem_range] at hk
    constructor <;> omega
  · rintro ⟨h1, h2⟩
    refine ⟨(x - a).toNat, ?_, by omega⟩
    rw [List.mem_range]
    omega

/-- Claim C10 (status: confirmed).  For every `source_lines` list and
every pair of integers — including `start ≤ 0`, `stop` beyond the file
length, or `stop < start` — every entry of the extracted snippet has
`line_number` in `[1, length]`, its zero-based index `line_number − 1`
is non-negative and strictly below the list length (so the Python
indexing `source_lines[lineno - 1]` never reaches outside the list and
the `getD` default is never consulted), and its `code` is the
corresponding source line; the result is empty exactly when the clamped
range is empty. -/
theorem C10_snippet_bounds (source_lines : List String) (start stop : ℤ) :
    (∀ e ∈ _extract_code_snippet source_lines start stop,
        1 ≤ e.line_number ∧ e.line_number ≤ (source_lines.length : ℤ) ∧
        (e.line_number - 1).toNat < source_lines.length ∧
        e.code = source_lines.getD (e.line_number - 1).toNat "") ∧
    (_extract_code_snippet source_lines start stop = [] ↔
      min (source_lines.length : ℤ) stop < max 1 start) := by
  constructor
  · intro e he
    simp only [_extract_code_snippet, List.mem_map] at he
    obtain ⟨lineno, hmem, rfl⟩ := he
    rw [mem_intRange] at hmem
    dsimp only
    exact ⟨by omega, by omega, by omega, rfl⟩
  · simp only [_extract_code_snippet, List.map_eq_nil_iff, intRange,
      List.range_eq_nil]
    omega

/-- Claim C7's counterexample: on the filename list `["a"]` and a pairs
list containing the self-pair `("a", "a", 0.5)`, the matrix cell
`M[0][0]` is `0.5`, not the `1.0` the claim asserts for every diagonal
cell (`0 < 1 = len(filenames)`). -/
theorem C7_counterexample_self_pair :
    (build_similarity_matrix [⟨"a", "a", 1/2⟩] ["a"]).2 0 0 = 1/2 ∧
    ¬ (build_similarity_matrix [⟨"a", "a", 1/2⟩] ["a"]).2 0 0 = 1 := by
  have hv : pyRound ((1 : ℚ)/2) 4 = 1/2 := by
    rw [pyRound_eq_div ((1 : ℚ)/2) 4 5000 (by norm_num)]
    norm_num
  have hcell : (build_similarity_matrix [⟨"a", "a", 1/2⟩] ["a"]).2 0 0 = 1/2 := by
    simp only [build_similarity_matrix, matrixUpdate, matrixIdx, setCell,
      List.enum, List.enumFrom, List.foldl]
    norm_num [hv, setCell]
  exact ⟨hcell, by rw [hcell]; norm_num⟩

/-- A `matrixIdx` hit points back at the filename list. -/
theorem matrixIdx_get (filenames : List String) :
    ∀ nm i, matrixIdx filenames nm = some i → filenames[i]? = some nm := by
  have aux : ∀ (l : List (ℕ × String)) (m0 : String → Option ℕ),
      (∀ nm i, m0 nm = some i → filenames[i]? = some nm) →
      (∀ p ∈ l, filenames[p.1]? = some p.2) →
      ∀ nm i,
        (l.foldl (fun m p => fun nm => if nm = p.2 then some p.1 else m nm) m0) nm =
          some i → filenames[i]? = some nm := by
    intro l
    induction l with
    | nil => intro m0 h0 _ nm i h; exact h0 nm i h
    | cons p rest ih =>
      intro m0 h0 hl nm i h
      refine ih _ ?_ (fun q hq => hl q (List.mem_cons_of_mem _ hq)) nm i h
      intro nm i h
      by_cases he : nm = p.2
      · simp only [he, if_pos rfl] at h
        obtain rfl : p.1 = i := by injection h
        rw [he]
        exact hl p (List.mem_cons_self _ _)
      · simp only [if_neg he] at h
        exact h0 nm i h
  intro nm i h
  refine aux filenames.enum (fun _ => none) (by intro _ _ h; cases h) ?_ nm i h
  intro p hp
  exact (List.mem_enum_iff_getElem?).1 hp

/-- `matrixIdx` is injective on hits. -/
theorem matrixIdx_inj (filenames : List String) {n1 n2 : String} {i : ℕ}
    (h1 : matrixIdx filenames n1 = some i) (h2 : matrixIdx filenames n2 = some i) :
    n1 = n2 := by
  have g1 := matrixIdx_get filenames n1 i h1
  have g2 := matrixIdx_get filenames n2 i h2
  rw [g1] at g2
  injection g2

/-- One `matrixUpdate` step keeps the matrix symmetric. -/
theorem matrixUpdate_symm (idx : String → Option ℕ) (m : ℕ → ℕ → ℚ)
    (p : ScorePair) (hm : ∀ i j, m i j = m j i) :
    ∀ i j, matrixUpdate idx m p i j = matrixUpdate idx m p j i := by
  intro a b
  unfold matrixUpdate
  cases idx p.file1 <;> cases idx p.file2 <;> try exact hm a b
  rename_i i j
  simp only [setCell]
  split_ifs <;> first | rfl | exact hm a b | tauto

/-- Claim C7 (status: corrected).  Provided no pair is a self-pair
(`file1 ≠ file2`, as the comparators always produce), the matrix is
symmetric, has `1.0` on the whole diagonal, and every off-diagonal cell
not written by any pair is `0.0`. -/
theorem C7_matrix_properties (results : List ScorePair) (filenames : List String)
    (hpairs : ∀ p ∈ results, p.file1 ≠ p.file2) :
    (∀ i j, (build_similarity_matrix results filenames).2 i j =
      (build_similarity_matrix results filenames).2 j i) ∧
    (∀ i, (build_similarity_matrix results filenames).2 i i = 1) ∧
    (∀ i j, i ≠ j →
      (∀ p ∈ results,
        ¬ ((matrixIdx filenames p.file1 = some i ∧ matrixIdx filenames p.file2 = some j) ∨
           (matrixIdx filenames p.file1 = some j ∧ matrixIdx filenames p.file2 = some i))) →
      (build_similarity_matrix results filenames).2 i j = 0) := by
  simp only [build_similarity_matrix]
  refine ⟨?_, ?_, ?_⟩
  · -- symmetry: preserved from the symmetric initial matrix by every step
    have aux : ∀ (rs : List ScorePair) (m : ℕ → ℕ → ℚ),
        (∀ i j, m i j = m j i) →
        ∀ i j, (rs.foldl (matrixUpdate (matrixIdx filenames)) m) i j =
          (rs.foldl (matrixUpdate (matrixIdx filenames)) m) j i := by
      intro rs
      induction rs with
      | nil => intro m hm; exact hm
      | cons p rest ih =>
        intro m hm
        exact ih _ (matrixUpdate_symm _ _ _ hm)
    exact aux results _ (by intro i j; simp only [eq_comm])
  · -- diagonal: no self-pair can write a diagonal cell
    have aux : ∀ (rs : List ScorePair) (m : ℕ → ℕ → ℚ),
        (∀ p ∈ rs, p.file1 ≠ p.file2) →
        (∀ i, m i i = 1) →
        ∀ i, (rs.foldl (matrixUpdate (matrixIdx filenames)) m) i i = 1 := by
      intro rs
      induction rs with
      | nil => intro m _ hm; exact hm
      | cons p rest ih =>
        intro m hrs hm
        refine ih _ (fun q hq => hrs q (List.mem_cons_of_mem _ hq)) ?_
        intro i
        unfold matrixUpdate
        cases e1 : matrixIdx filenames p.file1 <;>
          cases e2 : matrixIdx filenames p.file2 <;> try exact hm i
        rename_i a b
        have hab : a ≠ b := by
          intro he
          exact hrs p (List.mem_cons_self _ _)
            (matrixIdx_inj filenames e1 (he ▸ e2))
        simp only [setCell]
        have h1 : ¬ (i = b ∧ i = a) := by rintro ⟨rfl, rfl⟩; exact hab rfl
        have h2 : ¬ (i = a ∧ i = b) := by rintro ⟨rfl, rfl⟩; exact hab rfl
        rw [if_neg h1, if_neg h2]
        exact hm i
    exact aux results _ hpairs (by intro i; simp)
  · -- uncovered off-diagonal cells keep their initial 0.0
    intro i j hij huncov
    have aux : ∀ (rs : List ScorePair) (m : ℕ → ℕ → ℚ),
        (∀ p ∈ rs,
          ¬ ((matrixIdx filenames p.file1 = some i ∧ matrixIdx filenames p.file2 = some j) ∨
             (matrixIdx filenames p.file1 = some j ∧ matrixIdx filenames p.file2 = some i))) →
        (rs.foldl (matrixUpdate (matrixIdx filenames)) m) i j = m i j := by
      intro rs
      induction rs with
      | nil => intro m _; rfl
      | cons p rest ih =>
        intro m hrs
        rw [List.foldl_cons,
          ih _ (fun q hq => hrs q (List.mem_cons_of_mem _ hq))]
        unfold matrixUpdate
        cases e1 : matrixIdx filenames p.file1 <;>
          cases e2 : matrixIdx filenames p.file2 <;> try rfl
        rename_i a b
        have hp := hrs p (List.mem_cons_self _ _)
        simp only [setCell]
        have h1 : ¬ (i = b ∧ j = a) := by
          rintro ⟨rfl, rfl⟩
          exact hp (Or.inr ⟨e1, e2⟩)
        have h2 : ¬ (i = a ∧ j = b) := by
          rintro ⟨rfl, rfl⟩
          exact hp (Or.inl ⟨e1, e2⟩)
        rw [if_neg h1, if_neg h2]
    rw [aux results _ huncov]
    simp [hij]

/-- Every list is pairwise related by the trivial relation. -/
theorem pairwise_true {α : Type} (l : List α) : l.Pairwise (fun _ _ => True) := by
  induction l with
  | nil => exact .nil
  | cons a r ih => exact .cons (fun _ _ => trivial) ih

/-- Lexicographic order on string pairs is transitive. -/
theorem strPairLe_trans : ∀ {x y z : String × String},
    strPairLe x y → strPairLe y z → strPairLe x z := by
  rintro x y z (h1 | ⟨e1, h1⟩) (h2 | ⟨e2, h2⟩)
  · exact Or.inl (lt_trans h1 h2)
  · exact Or.inl (e2 ▸ h1)
  · exact Or.inl (e1 ▸ h2)
  · exact Or.inr ⟨e1.trans e2, le_trans h1 h2⟩

/-- Lexicographic order on string pairs is total. -/
theorem strPairLe_total (x y : String × String) : strPairLe x y ∨ strPairLe y x := by
  rcases lt_trichotomy x.1 y.1 with h | h | h
  · exact Or.inl (Or.inl h)
  · rcases le_total x.2 y.2 with h2 | h2
    · exact Or.inl (Or.inr ⟨h, h2⟩)
    · exact Or.inr (Or.inr ⟨h.symm, h2⟩)
  · exact Or.inr (Or.inl h)

/-- Stability of `orderedInsert`: inserting `a` into a list that is
pairwise `R` and whose every element is `S`-after `a` keeps the result
pairwise `R`, as long as `R` holds leftwards across a strict `le` gap
and ties are resolved by `S`. -/
theorem pairwise_orderedInsert_of {α : Type} {le : α → α → Prop} [DecidableRel le]
    {R S : α → α → Prop} (htrans : ∀ x y z, R x y → R y z → R x z)
    (h1 : ∀ x y, ¬ le y x → R x y)
    (h2 : ∀ x y, le x y → le y x → S x y → R x y) (a : α) :
    ∀ (m : List α), m.Pairwise R → (∀ b ∈ m, S a b) →
      (m.orderedInsert le a).Pairwise R
  | [], _, _ => by simp
  | b :: bs, hp, hS => by
    rw [List.orderedInsert]
    by_cases hab : le a b
    · rw [if_pos hab]
      refine List.Pairwise.cons ?_ hp
      intro c hc
      have hRab : R a b := by
        by_cases hba : le b a
        · exact h2 a b hab hba (hS b (List.mem_cons_self _ _))
        · exact h1 a b hba
      rcases List.mem_cons.1 hc with rfl | hc
      · exact hRab
      · exact htrans a b c hRab ((List.pairwise_cons.1 hp).1 c hc)
    · rw [if_neg hab]
      obtain ⟨hbAll, hbs⟩ := List.pairwise_cons.1 hp
      refine List.Pairwise.cons ?_
        (pairwise_orderedInsert_of htrans h1 h2 a bs hbs
          (fun c hc => hS c (List.mem_cons_of_mem _ hc)))
      intro c hc
      rcases (List.mem_orderedInsert le).1 hc with rfl | hc
      · exact h1 b c hab
      · exact hbAll c hc

/-- Stability of `insertionSort` (the model of Python's stable sort):
when the input is pairwise `S` (the original order), the sorted output
is pairwise `R`. -/
theorem pairwise_insertionSort_of {α : Type} {le : α → α → Prop} [DecidableRel le]
    {R S : α → α → Prop} (htrans : ∀ x y z, R x y → R y z → R x z)
    (h1 : ∀ x y, ¬ le y x → R x y)
    (h2 : ∀ x y, le x y → le y x → S x y → R x y) :
    ∀ (l : List α), l.Pairwise S → (l.insertionSort le).Pairwise R
  | [], _ => by simp
  | a :: rest, hp => by
    rw [List.insertionSort]
    obtain ⟨hall, hrest⟩ := List.pairwise_cons.1 hp
    refine pairwise_orderedInsert_of htrans h1 h2 a _
      (pairwise_insertionSort_of htrans h1 h2 rest hrest) ?_
    intro b hb
    exact hall b ((List.mem_insertionSort le).1 hb)

/-- Claim C8 (status: confirmed).  For every input: the graph's nodes
are exactly the input files (one node per list entry, so the counts
match, isolated files included); its edges are exactly the result pairs
with `score ≥ threshold`, carrying `weight = round(score, 4)`; and the
edge list is sorted by `(source, target)` ascending. -/
theorem C8_graph_properties (results : List ScorePair) (all_files : List String)
    (threshold : ℚ) :
    (build_similarity_graph results all_files threshold).1.Perm all_files ∧
    (build_similarity_graph results all_files threshold).1.length = all_files.length ∧
    (build_similarity_graph results all_files threshold).2.Perm
      ((results.filter (fun p => threshold ≤ p.similarity_score)).map
        (fun p => ⟨p.file1, p.file2, pyRound p.similarity_score 4⟩)) ∧
    (build_similarity_graph results all_files threshold).2.Pairwise
      (fun e f => strPairLe (e.source, e.target) (f.source, f.target)) := by
  have hfilter : results.filter (fun p => ¬ p.similarity_score < threshold) =
      results.filter (fun p => threshold ≤ p.similarity_score) := by
    apply List.filter_congr
    intro p _
    simp [not_lt]
  refine ⟨List.perm_insertionSort _ _,
    (List.perm_insertionSort _ _).length_eq, ?_, ?_⟩
  · simp only [build_similarity_graph]
    rw [hfilter] at *
    exact (List.perm_insertionSort _ _).trans (by rw [hfilter])
  · simp only [build_similarity_graph]
    refine pairwise_insertionSort_of ?_ ?_ ?_ _ (pairwise_true _)
    · exact fun x y z hx hy => strPairLe_trans hx hy
    · intro x y hxy
      exact (strPairLe_total _ _).resolve_right hxy
    · exact fun x y hxy _ _ => hxy

/-- The two empty-set-guarded Jaccard computations are literally the
same function. -/
theorem dataflow_similarity_value_eq_cfg :
    dataflow_similarity_value = cfg_similarity_value := rfl

/-- The guarded Jaccard of a set with itself is `1`. -/
theorem cfg_similarity_value_self (A : Finset String) :
    cfg_similarity_value A A = 1 := by
  by_cases h : A = ∅
  · simp [cfg_similarity_value, h]
  · have hc : ((A.card : ℚ)) ≠ 0 := by
      simpa [Finset.card_eq_zero] using h
    simp [cfg_similarity_value, h, Finset.inter_self, Finset.union_self, div_self hc]

/-- The AST layer reports similarity `1` when both analyses carry the
same non-empty hash set. -/
theorem compute_ast_similarity_self (fa : FileAnalysis) (h : fa.hash_set ≠ ∅) :
    (compute_ast_similarity fa fa).similarity = 1 := by
  have hc : ((fa.hash_set.card : ℚ)) ≠ 0 := by
    simpa [Finset.card_eq_zero] using h
  simp [compute_ast_similarity, Finset.inter_self, Finset.union_self, h,
    div_self hc, pyRound_one]

/-- The hash set of a parsed module is never empty: the `Module` root is
not a trivial node, so its hash is always recorded. -/
theorem generate_subtree_hashes_module_nonempty (H : String → String) (m : PyModule) :
    (generate_subtree_hashes H m.toIR).hash_set ≠ ∅ := by
  rw [PyModule.toIR, generate_subtree_hashes, subtreeCollect]
  have : ¬ ("Module" ∈ _TRIVIAL_NODES) := by decide
  simp only [this, if_false]
  exact Finset.insert_ne_empty _ _

/-- Claim C3 (status: confirmed).  For any two files with identical
source content — hence the same normalised module `m` and the same
`FileAnalysis` — the combined advanced score under the default weights
`(0.4, 0.3, 0.3)` is exactly `1.0`: the AST Jaccard is `1` (the hash set
of a module is never empty), and the CFG and DFG layers are `1` either
through equal non-empty edge-hash sets or through the both-empty
rule. -/
theorem C3_identical_files_score_one (H : String → String) (m : PyModule) :
    (compute_advanced_similarity H (4/10) (3/10) (3/10)
      (generate_subtree_hashes H m.toIR) (generate_subtree_hashes H m.toIR)
      m m).final_similarity_score = 1 := by
  have hast := compute_ast_similarity_self (generate_subtree_hashes H m.toIR)
    (generate_subtree_hashes_module_nonempty H m)
  have hcfg : (compute_cfg_similarity H m m).similarity = 1 := by
    rw [compute_cfg_similarity]
    simp only [cfg_similarity_value_self, pyRound_one]
  have hdfg : (compute_dataflow_similarity H m m).similarity = 1 := by
    rw [compute_dataflow_similarity]
    simp only [dataflow_similarity_value_eq_cfg, cfg_similarity_value_self, pyRound_one]
  rw [compute_advanced_similarity]
  simp only [hast, hcfg, hdfg]
  norm_num [pyRound_one]

/-- Folding a right-commutative step over a list depends only on the
list's multiset of elements. -/
theorem foldl_perm_of_rightComm {α β : Type} (f : β → α → β)
    (hf : ∀ b a1 a2, f (f b a1) a2 = f (f b a2) a1) :
    ∀ {l1 l2 : List α}, l1.Perm l2 → ∀ b, l1.foldl f b = l2.foldl f b := by
  intro l1 l2 p
  induction p with
  | nil => intro b; rfl
  | cons x _ ih => intro b; simp only [List.foldl_cons]; exact ih _
  | swap x y t => intro b; simp only [List.foldl_cons, hf]
  | trans _ _ ih1 ih2 => intro b; rw [ih1, ih2]

/-- `Stmt.toIRList` is a `map`. -/
theorem toIRList_eq_map : ∀ l : List Stmt, Stmt.toIRList l = l.map Stmt.toIR
  | [] => rfl
  | s :: rest => by rw [Stmt.toIRList, toIRList_eq_map rest, List.map_cons]

/-- The generic view of a statement has a function type tag exactly when
the statement is a function definition. -/
theorem stmt_toIR_funcType (s : Stmt) :
    isFuncIRType (Stmt.toIR s).type = isFuncStmt s := by
  cases s <;> rfl

/-- Walking a permuted forest yields a permuted node list. -/
theorem walkList_perm : ∀ {m1 m2 : List IRNode}, m1.Perm m2 →
    (IRNode.walkList m1).Perm (IRNode.walkList m2) := by
  intro m1 m2 p
  induction p with
  | nil => exact .refl _
  | cons x _ ih =>
    simp only [IRNode.walkList]
    exact List.Perm.append_left _ ih
  | swap x y t =>
    simp only [IRNode.walkList]
    rw [← List.append_assoc, ← List.append_assoc]
    exact List.perm_append_comm.append_right _
  | trans _ _ ih1 ih2 => exact ih1.trans ih2

/-- Collecting function subtrees of a permuted body yields a permuted
function list. -/
theorem funcNodesList_perm : ∀ {m1 m2 : List Stmt}, m1.Perm m2 →
    (Stmt.funcNodesList m1).Perm (Stmt.funcNodesList m2) := by
  intro m1 m2 p
  induction p with
  | nil => exact .refl _
  | cons x _ ih =>
    simp only [Stmt.funcNodesList]
    exact List.Perm.append_left _ ih
  | swap x y t =>
    simp only [Stmt.funcNodesList]
    rw [← List.append_assoc, ← List.append_assoc]
    exact List.perm_append_comm.append_right _
  | trans _ _ ih1 ih2 => exact ih1.trans ih2

/-- Below the module root, the module-level CFG pass is blind to
function-definition nodes: they are skipped before touching the counter
or the edge set. -/
theorem visitModuleList_filter_funcs :
    ∀ (cs : List IRNode) (parent_id depth : ℕ) (st : ℕ × Finset (ℕ × ℕ)),
      0 < depth →
      visitModuleList cs parent_id depth st =
        visitModuleList (cs.filter (fun n => !(isFuncIRType n.type)))
          parent_id depth st := by
  intro cs
  induction cs with
  | nil => intro _ _ _ _; rfl
  | cons c rest ih =>
    intro parent_id depth st hd
    rcases c with ⟨ty, nm, vl, ar, sl, el, ch⟩
    by_cases hf : isFuncIRType ty = true
    · have hty : ty = "FunctionDef" ∨ ty = "AsyncFunctionDef" := by
        simpa [isFuncIRType, Bool.or_eq_true, beq_iff_eq] using hf
      rw [List.filter_cons]
      have hpred : (!(isFuncIRType (IRNode.mk ty nm vl ar sl el ch).type)) = false := by
        simp [IRNode.type, hf]
      rw [hpred]
      simp only [Bool.false_eq_true, if_false]
      rw [visitModuleList, visitModule]
      rw [if_pos ⟨hd, hty⟩]
      exact ih parent_id depth st hd
    · rw [List.filter_cons]
      have hpred : (!(isFuncIRType (IRNode.mk ty nm vl ar sl el ch).type)) = true := by
        simp [IRNode.type]
        simpa using hf
      rw [hpred]
      simp only [if_true]
      rw [visitModuleList, visitModuleList]
      exact ih _ _ _ hd

/-- Claim C4 (status: confirmed).  Permuting the statements of a
normalised module while keeping the non-function statements in place
(so only the top-level function definitions move) changes neither the
CFG edge-hash set nor the DFG edge-hash set: per-function discovery ids
and the local `lv_k` renaming are reset at each function boundary, and
the module-level pass skips function bodies entirely. -/
theorem C4_function_order_invariance (H : String → String) (l1 l2 : List Stmt)
    (hperm : l1.Perm l2)
    (hfix : l1.filter (fun s => !(isFuncStmt s)) = l2.filter (fun s => !(isFuncStmt s))) :
    (_build_cfg_hashes H (PyModule.toIR ⟨l1⟩)).2 =
      (_build_cfg_hashes H (PyModule.toIR ⟨l2⟩)).2 ∧
    (_build_dataflow_hashes H ⟨l1⟩).1 = (_build_dataflow_hashes H ⟨l2⟩).1 := by
  constructor
  · -- CFG hash set
    have hwalkPerm : ((PyModule.toIR ⟨l1⟩).walk.filter
        (fun n => n.type == "FunctionDef" || n.type == "AsyncFunctionDef")).Perm
        ((PyModule.toIR ⟨l2⟩).walk.filter
        (fun n => n.type == "FunctionDef" || n.type == "AsyncFunctionDef")) := by
      simp only [PyModule.toIR, IRNode.walk, List.filter_cons]
      have hroot : ∀ l : List Stmt, ((IRNode.mk "Module" none none none none none
          (Stmt.toIRList l)).type == "FunctionDef" ||
          (IRNode.mk "Module" none none none none none (Stmt.toIRList l)).type ==
            "AsyncFunctionDef") = false := by
        intro l
        simp [IRNode.type]
      rw [hroot l1, hroot l2]
      simp only [Bool.false_eq_true, if_false]
      refine List.Perm.filter _ (walkList_perm ?_)
      rw [toIRList_eq_map, toIRList_eq_map]
      exact hperm.map _
    have hfold :
        ((PyModule.toIR ⟨l1⟩).walk.filter
          (fun n => n.type == "FunctionDef" || n.type == "AsyncFunctionDef")).foldl
          (fun acc f =>
            let r := _cfg_edges_for_function f
            (acc.1 + r.1, acc.2 ∪ r.2.image (cfgEdgeHash H)))
          ((0 : ℕ), (∅ : Finset String)) =
        ((PyModule.toIR ⟨l2⟩).walk.filter
          (fun n => n.type == "FunctionDef" || n.type == "AsyncFunctionDef")).foldl
          (fun acc f =>
            let r := _cfg_edges_for_function f
            (acc.1 + r.1, acc.2 ∪ r.2.image (cfgEdgeHash H)))
          ((0 : ℕ), (∅ : Finset String)) := by
      refine foldl_perm_of_rightComm _ ?_ hwalkPerm _
      intro b a1 a2
      dsimp only
      rw [Prod.ext_iff]
      constructor
      · dsimp only
        omega
      · dsimp only
        exact Finset.union_right_comm _ _ _
    have hmod : visitModule (PyModule.toIR ⟨l1⟩) 0 0 (0, ∅) =
        visitModule (PyModule.toIR ⟨l2⟩) 0 0 (0, ∅) := by
      simp only [PyModule.toIR, visitModule]
      have hnot : ¬ ((0 : ℕ) > 0 ∧ ("Module" = "FunctionDef" ∨ "Module" = "AsyncFunctionDef")) := by
        simp
      have hscope : ¬ ("Module" ∈ _CFG_SCOPE_NODES) := by decide
      rw [if_neg hnot, if_neg hnot, if_neg hscope, if_neg hscope]
      rw [visitModuleList_filter_funcs (Stmt.toIRList l1) 0 (0 + 1) (0, ∅) (by omega),
        visitModuleList_filter_funcs (Stmt.toIRList l2) 0 (0 + 1) (0, ∅) (by omega)]
      have hcongr : ∀ l : List Stmt,
          (Stmt.toIRList l).filter (fun n => !(isFuncIRType n.type)) =
            (l.filter (fun s => !(isFuncStmt s))).map Stmt.toIR := by
        intro l
        rw [toIRList_eq_map, List.filter_map]
        congr 1
        apply List.filter_congr
        intro s _
        simp only [Function.comp]
        rw [stmt_toIR_funcType]
      rw [hcongr l1, hcongr l2, hfix]
    simp only [_build_cfg_hashes]
    rw [hfold, hmod]
  · -- DFG hash set
    have hfuncs := funcNodesList_perm hperm
    have : _build_dataflow_hashes H ⟨l1⟩ = _build_dataflow_hashes H ⟨l2⟩ := by
      simp only [_build_dataflow_hashes]
      refine foldl_perm_of_rightComm _ ?_ hfuncs _
      intro b a1 a2
      dsimp only
      rw [Prod.ext_iff]
      constructor
      · dsimp only
        exact Finset.union_right_comm _ _ _
      · dsimp only
        omega
    rw [this]

/-- Witness for C4: swapping two concrete top-level functions around a
fixed `if` statement leaves both hash sets unchanged. -/
theorem C4_function_order_invariance_witness :
    ((_build_cfg_hashes (fun s => s) (PyModule.toIR
        ⟨[Stmt.functionDef "f" ["a"]
            [Stmt.returnS (some (Expr.name "a" Ctx.load))],
          Stmt.functionDef "g" ["b"]
            [Stmt.ifS (Expr.name "b" Ctx.load) [Stmt.passS] []],
          Stmt.exprS (Expr.constant (PyVal.strV "CONST"))]⟩)).2 =
      (_build_cfg_hashes (fun s => s) (PyModule.toIR
        ⟨[Stmt.functionDef "g" ["b"]
            [Stmt.ifS (Expr.name "b" Ctx.load) [Stmt.passS] []],
          Stmt.functionDef "f" ["a"]
            [Stmt.returnS (some (Expr.name "a" Ctx.load))],
          Stmt.exprS (Expr.constant (PyVal.strV "CONST"))]⟩)).2) ∧
    ((_build_dataflow_hashes (fun s => s)
        ⟨[Stmt.functionDef "f" ["a"]
            [Stmt.returnS (some (Expr.name "a" Ctx.load))],
          Stmt.functionDef "g" ["b"]
            [Stmt.ifS (Expr.name "b" Ctx.load) [Stmt.passS] []],
          Stmt.exprS (Expr.constant (PyVal.strV "CONST"))]⟩).1 =
      (_build_dataflow_hashes (fun s => s)
        ⟨[Stmt.functionDef "g" ["b"]
            [Stmt.ifS (Expr.name "b" Ctx.load) [Stmt.passS] []],
          Stmt.functionDef "f" ["a"]
            [Stmt.returnS (some (Expr.name "a" Ctx.load))],
          Stmt.exprS (Expr.constant (PyVal.strV "CONST"))]⟩).1) :=
  C4_function_order_invariance (fun s => s) _ _
    (List.Perm.swap _ _ _) rfl

/-- Witness for C7 at a concrete input: two files, one genuine pair. -/
theorem C7_matrix_properties_witness :
    (∀ p ∈ [(⟨"a", "b", 3/4⟩ : ScorePair)], p.file1 ≠ p.file2) ∧
    (∀ i j, (build_similarity_matrix [⟨"a", "b", 3/4⟩] ["a", "b"]).2 i j =
      (build_similarity_matrix [⟨"a", "b", 3/4⟩] ["a", "b"]).2 j i) ∧
    (∀ i, (build_similarity_matrix [⟨"a", "b", 3/4⟩] ["a", "b"]).2 i i = 1) := by
  have h := C7_matrix_properties [⟨"a", "b", 3/4⟩] ["a", "b"] (by decide)
  exact ⟨by decide, h.1, h.2.1⟩

/-! ### C9 — class renaming in the two normaliser paths -/

/-- `msizeList` is additive over append. -/
theorem msizeList_append (a b : List IRNode) :
    IRNode.msizeList (a ++ b) = IRNode.msizeList a + IRNode.msizeList b := by
  induction a with
  | nil => simp [IRNode.msizeList]
  | cons c cst ih => simp [IRNode.msizeList, ih]; omega

/-- `msizeList` is invariant under permutation. -/
theorem msizeList_perm {a b : List IRNode} (h : a.Perm b) :
    IRNode.msizeList a = IRNode.msizeList b := by
  induction h with
  | nil => rfl
  | cons x _ ih => simp [IRNode.msizeList, ih]
  | swap x y l => simp [IRNode.msizeList]; omega
  | trans _ _ ih1 ih2 => omega

/-- The JSX-attribute reordering preserves `msizeList`. -/
theorem msizeList_jsxSortChildren (t : String) (X : List IRNode) :
    IRNode.msizeList (jsxSortChildren t X) = IRNode.msizeList X := by
  have hsplit : ∀ l : List IRNode,
      IRNode.msizeList (l.filter (fun c => c.type != "JSXAttribute")) +
        IRNode.msizeList (l.filter (fun c => c.type == "JSXAttribute")) =
        IRNode.msizeList l := by
    intro l
    induction l with
    | nil => simp [IRNode.msizeList]
    | cons c cst ih =>
      by_cases h : c.type = "JSXAttribute" <;>
        simp [List.filter_cons, h, IRNode.msizeList] <;> omega
  unfold jsxSortChildren
  split
  · rw [msizeList_append, msizeList_perm (List.perm_insertionSort _ _), hsplit]
  · rfl

/-- The identifier chain preserves `msizeList` of the children. -/
theorem msizeList_normalizeStep (st : UNState) (ty : String) (nm : Option String)
    (ar : Option (List String)) (cs : List IRNode) :
    IRNode.msizeList (UnifiedNormalizer.normalizeStep st ty nm ar cs).2.2.2 =
      IRNode.msizeList cs := by
  unfold UnifiedNormalizer.normalizeStep
  repeat' split
  all_goals simp only [apply_ite
    (fun p : UNState × Option String × Option (List String) × List IRNode => p.2.2.2),
    apply_ite IRNode.msizeList, IRNode.msize, IRNode.msizeList, ite_self]

/-- `renameClasses` preserves the node type. -/
theorem renameClasses_type (σ : String → String) (c : IRNode) :
    (renameClasses σ c).type = c.type := by
  cases c
  simp only [renameClasses, IRNode.type]

/-- `renameClasses` preserves the name of non-class-like nodes. -/
theorem renameClasses_name (σ : String → String) (c : IRNode)
    (h : c.type ∉ _CLASS_TYPES) : (renameClasses σ c).name = c.name := by
  cases c with
  | mk ty nm vl ar sl el cs =>
    simp only [renameClasses, IRNode.name]
    rw [if_neg (by simpa [IRNode.type] using h)]

/-- `renameClassesList` is `map (renameClasses σ)`. -/
theorem renameClassesList_eq_map (σ : String → String) :
    ∀ l : List IRNode, renameClassesList σ l = l.map (renameClasses σ)
  | [] => by simp only [renameClassesList, List.map_nil]
  | c :: rest => by
    simp only [renameClassesList, List.map_cons, renameClassesList_eq_map σ rest]

/-- Looking up `σ n` in a `σ`-renamed association list is looking up `n`
in the original, for injective `σ`. -/
theorem assocFind_classRenameMap (σ : String → String)
    (hinj : Function.Injective σ) (m : List (String × String)) (n : String) :
    assocFind (classRenameMap σ m) (σ n) = assocFind m n := by
  induction m with
  | nil => rfl
  | cons p rest ih =>
    simp only [classRenameMap, List.map_cons] at *
    rw [assocFind, assocFind]
    by_cases h : n = p.1
    · subst h
      simp
    · rw [if_neg (fun hc => h (hinj hc)), if_neg h]
      exact ih

/-- `_canonical_var` commutes with transporting the state along a class
renaming (the `var_map` is untouched by `classRenameState`). -/
theorem canonicalVar_classRenameState (σ : String → String) (st : UNState)
    (n : String) :
    (classRenameState σ st).canonicalVar n =
      (classRenameState σ (st.canonicalVar n).1, (st.canonicalVar n).2) := by
  rcases st with ⟨vm, fm, cm, hm, vc, fc, cc, hc⟩
  simp only [UNState.canonicalVar, classRenameState, classRenameMap]
  cases h : assocFind vm n <;> simp [h]

/-- `_canonical_func` commutes with transporting the state along a class
renaming. -/
theorem canonicalFunc_classRenameState (σ : String → String) (st : UNState)
    (n : String) :
    (classRenameState σ st).canonicalFunc n =
      (classRenameState σ (st.canonicalFunc n).1, (st.canonicalFunc n).2) := by
  rcases st with ⟨vm, fm, cm, hm, vc, fc, cc, hc⟩
  simp only [UNState.canonicalFunc, classRenameState, classRenameMap]
  cases h : assocFind fm n <;> simp [h]

/-- `_canonical_hook` commutes with transporting the state along a class
renaming. -/
theorem canonicalHook_classRenameState (σ : String → String) (st : UNState)
    (n : String) :
    (classRenameState σ st).canonicalHook n =
      (classRenameState σ (st.canonicalHook n).1, (st.canonicalHook n).2) := by
  rcases st with ⟨vm, fm, cm, hm, vc, fc, cc, hc⟩
  simp only [UNState.canonicalHook, classRenameState, classRenameMap]
  cases h : assocFind hm n <;> simp [h]

/-- `_canonical_class` on the renamed name `σ n` in the transported state
gives the same placeholder as `_canonical_class` on `n` in the original
state. -/
theorem canonicalClass_classRenameState (σ : String → String)
    (hinj : Function.Injective σ) (st : UNState) (n : String) :
    (classRenameState σ st).canonicalClass (σ n) =
      (classRenameState σ (st.canonicalClass n).1, (st.canonicalClass n).2) := by
  rcases st with ⟨vm, fm, cm, hm, vc, fc, cc, hc⟩
  simp only [UNState.canonicalClass, classRenameState]
  rw [assocFind_classRenameMap σ hinj]
  cases h : assocFind cm n <;> simp [h, classRenameMap]

/-- The argument-list comprehension commutes with transporting the state
along a class renaming. -/
theorem canonicalVars_classRenameState (σ : String → String) :
    ∀ (l : List String) (st : UNState),
      (classRenameState σ st).canonicalVars l =
        (classRenameState σ (st.canonicalVars l).1, (st.canonicalVars l).2)
  | [], _ => rfl
  | a :: rest, st => by
    simp only [UNState.canonicalVars]
    rw [canonicalVar_classRenameState σ st a]
    rw [canonicalVars_classRenameState σ rest (st.canonicalVar a).1]

/-- `noClassCalleeList` is the conjunction of `noClassCallee` over the
members. -/
theorem noClassCalleeList_iff (l : List IRNode) :
    noClassCalleeList l = true ↔ ∀ c ∈ l, noClassCallee c = true := by
  induction l with
  | nil => simp [noClassCalleeList]
  | cons c rest ih =>
    simp [noClassCalleeList, Bool.and_eq_true, ih, List.forall_mem_cons]

/-- The identifier chain does not change whether the children list is
free of class-typed callees (it only rewrites name fields). -/
theorem noClassCalleeList_normalizeStep (st : UNState) (ty : String)
    (nm : Option String) (ar : Option (List String)) (cs : List IRNode) :
    noClassCalleeList (UnifiedNormalizer.normalizeStep st ty nm ar cs).2.2.2 =
      noClassCalleeList cs := by
  unfold UnifiedNormalizer.normalizeStep
  repeat' split
  all_goals simp only [apply_ite
    (fun p : UNState × Option String × Option (List String) × List IRNode => p.2.2.2),
    apply_ite noClassCalleeList, ite_self]
  all_goals try rfl
  all_goals simp only [noClassCalleeList, noClassCallee, IRNode.type,
    apply_ite noClassCalleeList, ite_self]

/-- The JSX-attribute reordering keeps the children free of class-typed
callees (it only filters and permutes). -/
theorem noClassCalleeList_jsxSortChildren (ty : String) (cs : List IRNode)
    (h : noClassCalleeList cs = true) :
    noClassCalleeList (jsxSortChildren ty cs) = true := by
  rw [noClassCalleeList_iff] at h ⊢
  intro c hc
  apply h
  unfold jsxSortChildren at hc
  split at hc
  · rcases List.mem_append.1 hc with h1 | h1
    · exact (List.mem_filter.1 h1).1
    · exact (List.mem_filter.1 ((List.mem_insertionSort _).1 h1)).1
  · exact hc

/-- The identifier chain commutes with an injective class renaming: on
the renamed inputs it produces the transported state, the same name and
args, and the renamed children — provided no class node sits in the
callee slot of a `CallExpression`. -/
theorem normalizeStep_classRenameState (σ : String → String)
    (hinj : Function.Injective σ) (st : UNState) (ty : String)
    (nm : Option String) (ar : Option (List String)) (cs : List IRNode)
    (hcallee : ∀ c l, ty = "CallExpression" → cs = c :: l →
      c.type ∉ _CLASS_TYPES) :
    UnifiedNormalizer.normalizeStep (classRenameState σ st) ty
        (if ty ∈ _CLASS_TYPES then nm.map σ else nm) ar (renameClassesList σ cs) =
      (classRenameState σ (UnifiedNormalizer.normalizeStep st ty nm ar cs).1,
        (UnifiedNormalizer.normalizeStep st ty nm ar cs).2.1,
        (UnifiedNormalizer.normalizeStep st ty nm ar cs).2.2.1,
        renameClassesList σ (UnifiedNormalizer.normalizeStep st ty nm ar cs).2.2.2) := by
  by_cases hcl : ty ∈ _CLASS_TYPES
  · have hty : ty = "ClassDef" ∨ ty = "ClassDeclaration" := by
      simpa [_CLASS_TYPES] using hcl
    have hf : ty ∉ _FUNC_TYPES := by rcases hty with rfl | rfl <;> decide
    have hj : ty ∉ _JSX_COMPONENT_TYPES := by rcases hty with rfl | rfl <;> decide
    have hc : ty ≠ "CallExpression" := by rcases hty with rfl | rfl <;> decide
    rw [if_pos hcl]
    cases nm with
    | none =>
      unfold UnifiedNormalizer.normalizeStep
      simp [hf, hj, hc, hcl]
    | some n =>
      unfold UnifiedNormalizer.normalizeStep
      simp only [Option.isSome_some, Option.map_some', Option.getD_some, and_true]
      rw [if_neg hf, if_neg hf, if_pos hcl, if_pos hcl]
      rw [canonicalClass_classRenameState σ hinj st n]
  · rw [if_neg hcl]
    unfold UnifiedNormalizer.normalizeStep
    by_cases hfn : ty ∈ _FUNC_TYPES ∧ nm.isSome
    · rw [if_pos hfn, if_pos hfn]
      cases ar with
      | none =>
        simp only [canonicalFunc_classRenameState]
      | some l =>
        simp only [canonicalFunc_classRenameState, canonicalVars_classRenameState]
    · rw [if_neg hfn, if_neg hfn,
        if_neg (show ¬(ty ∈ _CLASS_TYPES ∧ nm.isSome = true) from fun h => hcl h.1),
        if_neg (show ¬(ty ∈ _CLASS_TYPES ∧ nm.isSome = true) from fun h => hcl h.1)]
      by_cases hjn : ty ∈ _JSX_COMPONENT_TYPES ∧ nm.isSome
      · rw [if_pos hjn, if_pos hjn]
        simp only [canonicalFunc_classRenameState]
      · rw [if_neg hjn, if_neg hjn]
        by_cases hcall : ty = "CallExpression"
        · rw [if_pos hcall, if_pos hcall]
          cases cs with
          | nil => simp only [renameClassesList]
          | cons first rest =>
            rcases first with ⟨ft, fn, fv, fa, fs, fe, fc⟩
            have hft : ft ∉ _CLASS_TYPES := by
              simpa [IRNode.type] using
                hcallee (IRNode.mk ft fn fv fa fs fe fc) rest hcall rfl
            simp only [renameClassesList, renameClasses, if_neg hft]
            by_cases hhook : fn.getD "" ∈ _REACT_HOOKS
            · rw [if_pos hhook, if_pos hhook]
              simp only [canonicalHook_classRenameState, renameClassesList,
                renameClasses, if_neg hft]
            · rw [if_neg hhook, if_neg hhook]
              by_cases hfs : fn.isSome
              · rw [if_pos hfs, if_pos hfs]
                simp only [canonicalFunc_classRenameState, renameClassesList,
                  renameClasses, if_neg hft]
              · rw [if_neg hfs, if_neg hfs]
                simp only [renameClassesList, renameClasses, if_neg hft]
        · rw [if_neg hcall, if_neg hcall]
          by_cases hvar : nm.isSome ∧
              ty ∉ ["ImportDeclaration", "ExportDeclaration", "Import", "ImportFrom"]
          · rw [if_pos hvar, if_pos hvar]
            simp only [canonicalVar_classRenameState]
          · rw [if_neg hvar, if_neg hvar]

/-- The JSX-attribute sort commutes with class renaming: a renamed
`JSXAttribute` keeps its name (attributes are never class-like), so the
sort key is unchanged. -/
theorem jsxSortChildren_renameClassesList (σ : String → String) (ty : String)
    (cs : List IRNode) :
    jsxSortChildren ty (renameClassesList σ cs) =
      renameClassesList σ (jsxSortChildren ty cs) := by
  by_cases hty : ty ∈ ["JSXOpeningElement", "JSXSelfClosingElement"]
  · simp only [jsxSortChildren, if_pos hty]
    rw [renameClassesList_eq_map, renameClassesList_eq_map, List.map_append]
    have hfilt1 :
        (cs.map (renameClasses σ)).filter (fun c => c.type != "JSXAttribute") =
          (cs.filter (fun c => c.type != "JSXAttribute")).map (renameClasses σ) := by
      rw [List.filter_map]
      congr 1
      apply List.filter_congr
      intro c _
      simp [Function.comp, renameClasses_type]
    have hfilt2 :
        (cs.map (renameClasses σ)).filter (fun c => c.type == "JSXAttribute") =
          (cs.filter (fun c => c.type == "JSXAttribute")).map (renameClasses σ) := by
      rw [List.filter_map]
      congr 1
      apply List.filter_congr
      intro c _
      simp [Function.comp, renameClasses_type]
    have hsort :
        ((cs.filter (fun c => c.type == "JSXAttribute")).map
            (renameClasses σ)).insertionSort
            (fun a b => a.name.getD "" ≤ b.name.getD "") =
          ((cs.filter (fun c => c.type == "JSXAttribute")).insertionSort
            (fun a b => a.name.getD "" ≤ b.name.getD "")).map (renameClasses σ) := by
      symm
      apply List.map_insertionSort
      intro a ha b hb
      have hta : a.type = "JSXAttribute" := by
        simpa using (List.mem_filter.1 ha).2
      have htb : b.type = "JSXAttribute" := by
        simpa using (List.mem_filter.1 hb).2
      have hna : (renameClasses σ a).name = a.name :=
        renameClasses_name σ a (by rw [hta]; decide)
      have hnb : (renameClasses σ b).name = b.name :=
        renameClasses_name σ b (by rw [htb]; decide)
      rw [hna, hnb]
    rw [hfilt1, hfilt2, hsort]
  · simp only [jsxSortChildren, if_neg hty]

mutual

/-- Renaming class names through an injective `σ` commutes with the
unified normaliser: the output tree is identical and only the keys of
the `class_map` move through `σ` (assuming no class node sits in a
callee slot). -/
theorem unified_normalize_renameClasses (σ : String → String)
    (hinj : Function.Injective σ) :
    ∀ (t : IRNode) (st : UNState), noClassCallee t = true →
      UnifiedNormalizer.normalize (classRenameState σ st) (renameClasses σ t) =
        (classRenameState σ (UnifiedNormalizer.normalize st t).1,
          (UnifiedNormalizer.normalize st t).2)
  | .mk ty nm vl ar sl el cs, st, hwf => by
    have hwf' := hwf
    simp only [noClassCallee, Bool.and_eq_true] at hwf'
    have hwfl : noClassCalleeList cs = true := hwf'.2
    have hcallee : ∀ c l, ty = "CallExpression" → cs = c :: l →
        c.type ∉ _CLASS_TYPES := by
      intro c l hty hcs
      subst hty
      subst hcs
      have h1 := hwf'.1
      simpa using h1
    have hl : noClassCalleeList
        (jsxSortChildren ty
          (UnifiedNormalizer.normalizeStep st ty nm ar cs).2.2.2) = true := by
      apply noClassCalleeList_jsxSortChildren
      rw [noClassCalleeList_normalizeStep]
      exact hwfl
    simp only [renameClasses]
    simp only [UnifiedNormalizer.normalize]
    rw [normalizeStep_classRenameState σ hinj st ty nm ar cs hcallee]
    dsimp only
    rw [jsxSortChildren_renameClassesList σ ty]
    rw [unified_normalizeList_renameClasses σ hinj
      (jsxSortChildren ty (UnifiedNormalizer.normalizeStep st ty nm ar cs).2.2.2)
      (UnifiedNormalizer.normalizeStep st ty nm ar cs).1 hl]
termination_by t st h => (IRNode.msize t, 0)
decreasing_by
  apply Prod.Lex.left
  rw [msizeList_jsxSortChildren, msizeList_normalizeStep]
  simp only [IRNode.msize]
  omega

/-- List version of `unified_normalize_renameClasses`. -/
theorem unified_normalizeList_renameClasses (σ : String → String)
    (hinj : Function.Injective σ) :
    ∀ (l : List IRNode) (st : UNState), noClassCalleeList l = true →
      UnifiedNormalizer.normalizeList (classRenameState σ st)
          (renameClassesList σ l) =
        (classRenameState σ (UnifiedNormalizer.normalizeList st l).1,
          (UnifiedNormalizer.normalizeList st l).2)
  | [], st, _ => by
    simp only [renameClassesList, UnifiedNormalizer.normalizeList]
  | c :: rest, st, h => by
    simp only [noClassCalleeList, Bool.and_eq_true] at h
    simp only [renameClassesList, UnifiedNormalizer.normalizeList]
    rw [unified_normalize_renameClasses σ hinj c st h.1]
    rw [unified_normalizeList_renameClasses σ hinj rest
      (UnifiedNormalizer.normalize st c).1 h.2]
termination_by l st h => (IRNode.msizeList l, 1)
decreasing_by
  · simp_wf
    have h : IRNode.msize c ≤ IRNode.msizeList (c :: rest) := by
      simp [IRNode.msizeList]
    rcases lt_or_eq_of_le h with h1 | h1
    · exact Prod.Lex.left _ _ h1
    · rw [h1]
      exact Prod.Lex.right _ (by omega)
  · simp_wf
    apply Prod.Lex.left
    have h : 1 ≤ IRNode.msize c := by
      cases c
      simp [IRNode.msize]
    simp [IRNode.msizeList]
    omega

end

/-- **C9** (corrected).  The unified-IR normaliser does canonicalise class
names: for an injective renaming `σ` of class-node names (and trees with
no class node in a callee slot), `normalize_ir` gives identical trees,
so two files differing only in class names normalise identically in the
unified-IR path.  The Python-AST path however keeps class names: the
result of `normStmt` on a `ClassDef` is a `ClassDef` with the *same*
name, so the claim's "both parser paths" fails there (see
`C9_counterexample_python_path`). -/
theorem C9_class_rename_invariance (σ : String → String)
    (hinj : Function.Injective σ) (t : IRNode) (hwf : noClassCallee t = true)
    (nm : String) (body : List Stmt) (st : NSt) :
    normalize_ir (renameClasses σ t) = normalize_ir t ∧
    ∃ body2 st2, normStmt (Stmt.classDef nm body) st =
      (Stmt.classDef nm body2, st2) := by
  constructor
  · unfold normalize_ir
    have hinit : classRenameState σ UNState.init = UNState.init := by
      simp [classRenameState, classRenameMap, UNState.init]
    rw [show UnifiedNormalizer.normalize UNState.init (renameClasses σ t) =
        UnifiedNormalizer.normalize (classRenameState σ UNState.init)
          (renameClasses σ t) by rw [hinit]]
    rw [unified_normalize_renameClasses σ hinj t UNState.init hwf]
  · rcases body with _ | ⟨s, rest⟩
    · simp only [normStmt]
      exact ⟨_, _, rfl⟩
    · cases s
      case exprS e =>
        cases e
        case constant v =>
          cases v
          all_goals simp only [normStmt]
          all_goals exact ⟨_, _, rfl⟩
        all_goals simp only [normStmt]
        all_goals exact ⟨_, _, rfl⟩
      all_goals simp only [normStmt]
      all_goals exact ⟨_, _, rfl⟩

/-- Counterexample to the Python-path half of C9's wording: the
Python-AST normaliser (`visit_ClassDef`) performs no class renaming, so
two modules differing only in a class name keep their distinct class
names and do not normalise to the same tree. -/
theorem C9_counterexample_python_path :
    Stmt.classNamesList
        (normalize_ast (PyModule.mk [Stmt.classDef "A" [Stmt.passS]])).body =
      ["A"] ∧
    Stmt.classNamesList
        (normalize_ast (PyModule.mk [Stmt.classDef "B" [Stmt.passS]])).body =
      ["B"] ∧
    normalize_ast (PyModule.mk [Stmt.classDef "A" [Stmt.passS]]) ≠
      normalize_ast (PyModule.mk [Stmt.classDef "B" [Stmt.passS]]) := by
  have hA : normalize_ast (PyModule.mk [Stmt.classDef "A" [Stmt.passS]]) =
      PyModule.mk [Stmt.classDef "A" [Stmt.passS]] := by
    simp [normalize_ast, _strip_docstrings, normStmts, normStmt]
  have hB : normalize_ast (PyModule.mk [Stmt.classDef "B" [Stmt.passS]]) =
      PyModule.mk [Stmt.classDef "B" [Stmt.passS]] := by
    simp [normalize_ast, _strip_docstrings, normStmts, normStmt]
  refine ⟨?_, ?_, ?_⟩
  · rw [hA]
    simp [Stmt.classNamesList, Stmt.classNames]
  · rw [hB]
    simp [Stmt.classNamesList, Stmt.classNames]
  · intro he
    rw [hA, hB] at he
    simp at he

/-- Witness for C9 at a concrete input: `σ` swaps the class names `A`
and `B`, the unified-IR tree is a bare `ClassDeclaration A`, and the
Python statement is `class A: pass`. -/
theorem C9_class_rename_invariance_witness :
    normalize_ir (renameClasses
        (fun s => if s = "A" then "B" else if s = "B" then "A" else s)
        (IRNode.mk "ClassDeclaration" (some "A") none none none none [])) =
      normalize_ir (IRNode.mk "ClassDeclaration" (some "A") none none none none []) ∧
    ∃ body2 st2, normStmt (Stmt.classDef "A" [Stmt.passS]) ⟨[], [], 0, 0⟩ =
      (Stmt.classDef "A" body2, st2) := by
  have hinj : Function.Injective
      (fun s => if s = "A" then "B" else if s = "B" then "A" else s) := by
    apply Function.Involutive.injective
    intro s
    by_cases h1 : s = "A"
    · subst h1
      simp
    · by_cases h2 : s = "B"
      · subst h2
        simp
      · simp [h1, h2]
  exact C9_class_rename_invariance
    (fun s => if s = "A" then "B" else if s = "B" then "A" else s) hinj
    (IRNode.mk "ClassDeclaration" (some "A") none none none none [])
    (by simp [noClassCallee, noClassCalleeList])
    "A" [Stmt.passS] ⟨[], [], 0, 0⟩

/-! ### C6 — output order and threshold of the two comparators -/

/-- The first component of an `offDiagPairs` element is a member of the
input list. -/
theorem offDiagPairs_mem_fst {α : Type} :
    ∀ (l : List α) (p : α × α), p ∈ offDiagPairs l → p.1 ∈ l
  | [], _, h => by simp [offDiagPairs] at h
  | a :: rest, p, h => by
    simp only [offDiagPairs] at h
    rcases List.mem_append.1 h with h1 | h1
    · obtain ⟨b, _, rfl⟩ := List.mem_map.1 h1
      exact List.mem_cons_self _ _
    · exact List.mem_cons_of_mem _ (offDiagPairs_mem_fst rest p h1)

/-- Strict lexicographic order on string pairs weakens to the weak
one. -/
theorem strPairLt_le {x y : String × String} (h : strPairLt x y) :
    strPairLe x y := by
  rcases h with h | ⟨he, h⟩
  · exact Or.inl h
  · exact Or.inr ⟨he, le_of_lt h⟩

/-- The `i < j` candidate pairs of a list with strictly increasing keys
are strictly lexicographically increasing in their key pairs (the
row-major enumeration order of the nested loops). -/
theorem pairwise_offDiagPairs (l : List (String × FileAnalysis))
    (h : l.Pairwise (fun x y => x.1 < y.1)) :
    (offDiagPairs l).Pairwise
      (fun c d => strPairLt (c.1.1, c.2.1) (d.1.1, d.2.1)) := by
  induction l with
  | nil => simp [offDiagPairs]
  | cons a rest ih =>
    obtain ⟨hall, hrest⟩ := List.pairwise_cons.1 h
    simp only [offDiagPairs]
    rw [List.pairwise_append]
    refine ⟨?_, ih hrest, ?_⟩
    · rw [List.pairwise_map]
      refine hrest.imp ?_
      intro x y hxy
      exact Or.inr ⟨rfl, hxy⟩
    · intro x hx y hy
      obtain ⟨b, hb, rfl⟩ := List.mem_map.1 hx
      exact Or.inl (hall _ (offDiagPairs_mem_fst rest y hy))

/-- **C6** (corrected).  Both comparators keep exactly the candidate
pairs whose final score is at least the threshold (the `Perm`
conjuncts), and both return them sorted by `similarity_score`
descending.  The `(file1, file2)` ascending tie-break however holds only
for the within-group comparator (whose candidates are enumerated over
sorted, duplicate-free filenames, so the stable sort preserves it); the
cross-group comparator enumerates the two dicts in insertion order and
its ties stay in that order (see
`C6_counterexample_cross_insertion_order`). -/
theorem C6_sorted_and_thresholded (H : String → String)
    (w_ast w_cfg w_dataflow : ℚ) (analyses : List (String × FileAnalysis))
    (group_a group_b : List (String × FileAnalysis)) (threshold : ℚ)
    (hnd : (analyses.map Prod.fst).Nodup) :
    ((compute_similarity H w_ast w_cfg w_dataflow analyses threshold).Pairwise
        pairDescTieRel ∧
      (compute_similarity H w_ast w_cfg w_dataflow analyses threshold).Perm
        (((offDiagPairs (analyses.insertionSort (fun x y => x.1 ≤ y.1))).filter
            (fun c => threshold ≤
              (_pair_similarity_detail H w_ast w_cfg w_dataflow c.1.2 c.2.2).1)).map
          (fun c => mkPairResult H w_ast w_cfg w_dataflow c.1.1 c.2.1 c.1.2 c.2.2))) ∧
    ((compute_cross_similarity H w_ast w_cfg w_dataflow group_a group_b
        threshold).Pairwise pairDescRel ∧
      (compute_cross_similarity H w_ast w_cfg w_dataflow group_a group_b
        threshold).Perm
        (((crossPairs group_a group_b).filter
            (fun c => threshold ≤
              (_pair_similarity_detail H w_ast w_cfg w_dataflow c.1.2 c.2.2).1)).map
          (fun c => mkPairResult H w_ast w_cfg w_dataflow c.1.1 c.2.1 c.1.2 c.2.2))) := by
  have hfilter : ∀ L : List ((String × FileAnalysis) × (String × FileAnalysis)),
      L.filter (fun c =>
        ¬ (_pair_similarity_detail H w_ast w_cfg w_dataflow c.1.2 c.2.2).1 < threshold) =
      L.filter (fun c =>
        threshold ≤ (_pair_similarity_detail H w_ast w_cfg w_dataflow c.1.2 c.2.2).1) := by
    intro L
    apply List.filter_congr
    intro c _
    simp [not_lt]
  have htrans : ∀ x y z : PairResult, pairDescTieRel x y → pairDescTieRel y z →
      pairDescTieRel x z := by
    rintro x y z (h1 | ⟨e1, h1⟩) (h2 | ⟨e2, h2⟩)
    · exact Or.inl (lt_trans h2 h1)
    · exact Or.inl (by rw [← e2]; exact h1)
    · exact Or.inl (by rw [e1]; exact h2)
    · exact Or.inr ⟨e1.trans e2, strPairLe_trans h1 h2⟩
  have h1 : ∀ x y : PairResult,
      ¬ (x.similarity_score ≤ y.similarity_score) → pairDescTieRel x y :=
    fun x y h => Or.inl (not_le.1 h)
  have h2 : ∀ x y : PairResult,
      y.similarity_score ≤ x.similarity_score →
      x.similarity_score ≤ y.similarity_score →
      strPairLt (x.file1, x.file2) (y.file1, y.file2) → pairDescTieRel x y :=
    fun x y hxy hyx hS => Or.inr ⟨le_antisymm hyx hxy, strPairLt_le hS⟩
  refine ⟨⟨?_, ?_⟩, ?_, ?_⟩
  · -- within-group: descending with lexicographic tie-break
    have hsorted : (analyses.insertionSort (fun x y => x.1 ≤ y.1)).Pairwise
        (fun x y => x.1 ≤ y.1) :=
      @pairwise_insertionSort_of (String × FileAnalysis)
        (fun x y => x.1 ≤ y.1) (fun _ _ => inferInstance)
        (fun x y => x.1 ≤ y.1) (fun _ _ => True)
        (fun x y z hx hy => le_trans hx hy)
        (fun x y h => (not_le.1 h).le)
        (fun x y h _ _ => h)
        analyses (pairwise_true _)
    have hnd2 : ((analyses.insertionSort (fun x y => x.1 ≤ y.1)).map
        Prod.fst).Nodup :=
      (((List.perm_insertionSort _ _).map Prod.fst).nodup_iff).2 hnd
    have hne : (analyses.insertionSort (fun x y => x.1 ≤ y.1)).Pairwise
        (fun x y => x.1 ≠ y.1) := List.pairwise_map.1 hnd2
    have hstrict : (analyses.insertionSort (fun x y => x.1 ≤ y.1)).Pairwise
        (fun x y => x.1 < y.1) :=
      (hsorted.and hne).imp (fun h => lt_of_le_of_ne h.1 h.2)
    have hcand := pairwise_offDiagPairs _ hstrict
    have hfiltered := hcand.filter (fun c =>
      decide (¬ (_pair_similarity_detail H w_ast w_cfg w_dataflow
        c.1.2 c.2.2).1 < threshold))
    have hSres : (((offDiagPairs (analyses.insertionSort (fun x y => x.1 ≤ y.1))).filter
        (fun c => ¬ (_pair_similarity_detail H w_ast w_cfg w_dataflow
          c.1.2 c.2.2).1 < threshold)).map
        (fun c => mkPairResult H w_ast w_cfg w_dataflow
          c.1.1 c.2.1 c.1.2 c.2.2)).Pairwise
        (fun p q => strPairLt (p.file1, p.file2) (q.file1, q.file2)) :=
      List.pairwise_map.2 hfiltered
    simp only [compute_similarity]
    exact pairwise_insertionSort_of htrans h1 h2 _ hSres
  · -- within-group: multiset of results = thresholded candidates
    simp only [compute_similarity]
    refine (List.perm_insertionSort _ _).trans ?_
    rw [hfilter]
  · -- cross-group: descending scores
    simp only [compute_cross_similarity]
    exact @pairwise_insertionSort_of PairResult
      (fun p q => q.similarity_score ≤ p.similarity_score)
      (fun _ _ => inferInstance) pairDescRel (fun _ _ => True)
      (fun x y z hx hy => le_trans hy hx)
      (fun x y h => (not_le.1 h).le)
      (fun x y h _ _ => h)
      _ (pairwise_true _)
  · -- cross-group: multiset of results = thresholded candidates
    simp only [compute_cross_similarity]
    refine (List.perm_insertionSort _ _).trans ?_
    rw [hfilter]

/-- Counterexample to the cross-group tie-break of C6: the two dicts are
iterated in insertion order, so with `group_a` inserted as `b` before
`a` (both identical, empty analyses) and `group_b = {x}`, the two
resulting pairs tie at score `0` and come back as
`[(b, x), (a, x)]` — not `(file1, file2)` ascending. -/
theorem C6_counterexample_cross_insertion_order :
    ¬ (compute_cross_similarity (fun s => s) (4/10) (3/10) (3/10)
        [("b", FileAnalysis.mk "" [] [] ∅ (fun _ => []) none),
         ("a", FileAnalysis.mk "" [] [] ∅ (fun _ => []) none)]
        [("x", FileAnalysis.mk "" [] [] ∅ (fun _ => []) none)] 0).Pairwise
      pairDescTieRel := by
  intro hpw
  have hdetail : _pair_similarity_detail (fun s : String => s) (4/10) (3/10) (3/10)
      (FileAnalysis.mk "" [] [] ∅ (fun _ => []) none)
      (FileAnalysis.mk "" [] [] ∅ (fun _ => []) none) = (0, 0, 0, 0) := by
    simp [_pair_similarity_detail]
  have hlist : compute_cross_similarity (fun s : String => s) (4/10) (3/10) (3/10)
      [("b", FileAnalysis.mk "" [] [] ∅ (fun _ => []) none),
       ("a", FileAnalysis.mk "" [] [] ∅ (fun _ => []) none)]
      [("x", FileAnalysis.mk "" [] [] ∅ (fun _ => []) none)] 0 =
      [mkPairResult (fun s : String => s) (4/10) (3/10) (3/10) "b" "x"
         (FileAnalysis.mk "" [] [] ∅ (fun _ => []) none)
         (FileAnalysis.mk "" [] [] ∅ (fun _ => []) none),
       mkPairResult (fun s : String => s) (4/10) (3/10) (3/10) "a" "x"
         (FileAnalysis.mk "" [] [] ∅ (fun _ => []) none)
         (FileAnalysis.mk "" [] [] ∅ (fun _ => []) none)] := by
    simp [compute_cross_similarity, crossPairs, hdetail, List.insertionSort,
      List.orderedInsert, mkPairResult, pyRound_zero]
  rw [hlist] at hpw
  have hrel := (List.pairwise_cons.1 hpw).1 _ (List.mem_cons_self _ _)
  rcases hrel with h | ⟨_, h⟩
  · simp [mkPairResult, hdetail, pyRound_zero] at h
  · rcases h with h | ⟨he, _⟩
    · have : ¬ ("b" : String) < "a" := by
        simp
        decide
      exact this (by simpa [mkPairResult] using h)
    · have : ("b" : String) ≠ "a" := by decide
      exact this (by simpa [mkPairResult] using he)

/-- Witness for C6 at a concrete input: two within-group files with
distinct names and a one-against-one cross comparison, threshold `0`. -/
theorem C6_sorted_and_thresholded_witness :
    (([("b", FileAnalysis.mk "" [] [] ∅ (fun _ => []) none),
       ("a", FileAnalysis.mk "" [] [] ∅ (fun _ => []) none)].map
        Prod.fst).Nodup) ∧
    (((compute_similarity (fun s => s) (4/10) (3/10) (3/10)
        [("b", FileAnalysis.mk "" [] [] ∅ (fun _ => []) none),
         ("a", FileAnalysis.mk "" [] [] ∅ (fun _ => []) none)] 0).Pairwise
        pairDescTieRel ∧
      (compute_similarity (fun s => s) (4/10) (3/10) (3/10)
        [("b", FileAnalysis.mk "" [] [] ∅ (fun _ => []) none),
         ("a", FileAnalysis.mk "" [] [] ∅ (fun _ => []) none)] 0).Perm
        (((offDiagPairs ([("b", FileAnalysis.mk "" [] [] ∅ (fun _ => []) none),
            ("a", FileAnalysis.mk "" [] [] ∅ (fun _ => []) none)].insertionSort
              (fun x y => x.1 ≤ y.1))).filter
            (fun c => (0 : ℚ) ≤
              (_pair_similarity_detail (fun s => s) (4/10) (3/10) (3/10)
                c.1.2 c.2.2).1)).map
          (fun c => mkPairResult (fun s => s) (4/10) (3/10) (3/10)
            c.1.1 c.2.1 c.1.2 c.2.2))) ∧
    ((compute_cross_similarity (fun s => s) (4/10) (3/10) (3/10)
        [("a", FileAnalysis.mk "" [] [] ∅ (fun _ => []) none)]
        [("x", FileAnalysis.mk "" [] [] ∅ (fun _ => []) none)] 0).Pairwise
        pairDescRel ∧
      (compute_cross_similarity (fun s => s) (4/10) (3/10) (3/10)
        [("a", FileAnalysis.mk "" [] [] ∅ (fun _ => []) none)]
        [("x", FileAnalysis.mk "" [] [] ∅ (fun _ => []) none)] 0).Perm
        (((crossPairs [("a", FileAnalysis.mk "" [] [] ∅ (fun _ => []) none)]
            [("x", FileAnalysis.mk "" [] [] ∅ (fun _ => []) none)]).filter
            (fun c => (0 : ℚ) ≤
              (_pair_similarity_detail (fun s => s) (4/10) (3/10) (3/10)
                c.1.2 c.2.2).1)).map
          (fun c => mkPairResult (fun s => s) (4/10) (3/10) (3/10)
            c.1.1 c.2.1 c.1.2 c.2.2)))) :=
  ⟨by decide,
    C6_sorted_and_thresholded (fun s => s) (4/10) (3/10) (3/10)
      [("b", FileAnalysis.mk "" [] [] ∅ (fun _ => []) none),
       ("a", FileAnalysis.mk "" [] [] ∅ (fun _ => []) none)]
      [("a", FileAnalysis.mk "" [] [] ∅ (fun _ => []) none)]
      [("x", FileAnalysis.mk "" [] [] ∅ (fun _ => []) none)] 0 (by decide)⟩

end Cloniq
